import Mathlib

/-
Verification of the enterprise i18n lazy-loading runtime: a shallow
embedding of the tiered translation cache (cache.ts), the dynamic module
loader with in-flight de-duplication and fallback recovery (loader.ts),
the error taxonomy / recovery executor / tracker (errors.ts), the state
manager (state.ts) and the facade's getTranslation (index.ts).

Conventions of the embedding:
- A JavaScript Map is an association list in insertion order (JsMap):
  set on a fresh key appends, set on a present key updates in place,
  delete removes, iteration follows the list.
- Date.now() / performance.now() are an explicit `now : Nat` argument.
- Promises: an async call is split into its synchronous prefix (up to the
  first await); a pending promise is a numeric id, and resolution is an
  environment mapping ids to values.
- JS truthiness is modelled where the code relies on it (empty string and
  undefined are falsy; `x || d` maps 0/undefined to d).
- Thrown errors are Except / explicit error-class values.
-/

namespace I18nModel

/-- A JavaScript Map as an insertion-ordered association list. -/
abbrev JsMap (α : Type) : Type := List (String × α)

/-- Map.get: the value stored at a key (first occurrence). -/
def mapGet {α : Type} : JsMap α → String → Option α
  | [], _ => none
  | (k, v) :: rest, key => if k = key then some v else mapGet rest key

/-- Map.set: update in place when the key is present, append otherwise. -/
def mapSet {α : Type} : JsMap α → String → α → JsMap α
  | [], key, v => [(key, v)]
  | (k, w) :: rest, key, v =>
      if k = key then (key, v) :: rest else (k, w) :: mapSet rest key v

/-- Map.delete: remove every pair stored at the key. -/
def mapDelete {α : Type} : JsMap α → String → JsMap α
  | [], _ => []
  | (k, v) :: rest, key =>
      if k = key then mapDelete rest key else (k, v) :: mapDelete rest key

/-- The keys of the map in insertion order. -/
def mapKeys {α : Type} (m : JsMap α) : List String := m.map Prod.fst

/-- Map.has. -/
def mapContains {α : Type} (m : JsMap α) (k : String) : Bool := (mapGet m k).isSome

-- ============================================================================
-- TRANSLATION DATA (the JSON payload of /i18n/{locale}.json)
-- ============================================================================

/-- A JSON-ish translation value: a string leaf, a nested object, or
JavaScript undefined (produced by indexing a missing property). -/
inductive TransValue : Type
  | str (s : String)
  | obj (fields : List (String × TransValue))
  | undef
deriving Repr

/-- JS truthiness of a TransValue: objects are truthy, the empty string and
undefined are falsy. -/
def truthy : TransValue → Bool
  | .str s => decide (s ≠ "")
  | .obj _ => true
  | .undef => false

/-- `data[name]` on a translation value: property lookup on objects, absent
otherwise. -/
def fieldGet : TransValue → String → Option TransValue
  | .obj fields, name => mapGet fields name
  | _, _ => none

/-- The section slice `{ [section]: fullData[section] }` built by
performLoad / loadFallback, or the whole payload when no section is asked. -/
def sectionExtract (fullData : TransValue) (sec : Option String) : TransValue :=
  match sec with
  | some s => .obj [(s, (fieldGet fullData s).getD .undef)]
  | none => fullData

-- ============================================================================
-- CACHE ENTRY (CacheEntryImpl, cache.ts)
-- ============================================================================

/-- CacheEntryImpl: data, creation timestamp, ttl (ms), hit counter. -/
structure CacheEntry (α : Type) where
  data : α
  timestamp : Nat
  ttl : Nat
  hits : Nat
deriving Repr

/-- isExpired(): Date.now() - timestamp > ttl. -/
def entryIsExpired {α : Type} (e : CacheEntry α) (now : Nat) : Bool :=
  decide (e.ttl < now - e.timestamp)

/-- getAge(): Date.now() - timestamp. -/
def entryAge {α : Type} (e : CacheEntry α) (now : Nat) : Nat :=
  now - e.timestamp

/-- getHitRate(): hits per second of age (0 for age 0). -/
def entryHitRate {α : Type} (e : CacheEntry α) (now : Nat) : ℚ :=
  if 0 < entryAge e now then (e.hits : ℚ) / ((entryAge e now : ℚ) / 1000) else 0

/-- The entry `new CacheEntryImpl(data, ttl)` built at time `now`; an absent
ttl argument defaults to 300000 ms. -/
def newEntry {α : Type} (data : α) (ttl : Option Nat) (now : Nat) : CacheEntry α :=
  { data := data, timestamp := now, ttl := ttl.getD 300000, hits := 0 }

-- ============================================================================
-- MEMORY CACHE STRATEGY (MemoryCacheStrategy, cache.ts)
-- ============================================================================

/-- MemoryCacheStrategy: a Map of entries plus the configured max size. -/
structure MemoryCacheStrategy (α : Type) where
  cache : JsMap (CacheEntry α)
  maxSize : Nat
deriving Repr

/-- get(key): null if absent; delete and return null if expired; otherwise
increment the entry's hits and return it. -/
def memGet {α : Type} (s : MemoryCacheStrategy α) (k : String) (now : Nat) :
    Option (CacheEntry α) × MemoryCacheStrategy α :=
  match mapGet s.cache k with
  | none => (none, s)
  | some e =>
      if entryIsExpired e now then
        (none, { s with cache := mapDelete s.cache k })
      else
        let bumped := { e with hits := e.hits + 1 }
        (some bumped, { s with cache := mapSet s.cache k bumped })

/-- One step of evictLeastUsed's scan: the running candidate is
(key, leastHits, oldestAge); a none accumulator stands for the initial
Infinity leastHits, so the first entry always becomes the candidate. -/
def evictStep {α : Type} (now : Nat) (acc : Option (String × ℚ × Nat))
    (p : String × CacheEntry α) : Option (String × ℚ × Nat) :=
  let rate := entryHitRate p.2 now
  let age := entryAge p.2 now
  match acc with
  | none => some (p.1, rate, age)
  | some (k0, bestRate, bestAge) =>
      if rate < bestRate ∨ (rate = bestRate ∧ bestAge < age) then
        some (p.1, rate, age)
      else some (k0, bestRate, bestAge)

/-- evictLeastUsed's scan: fold over the map tracking the key with the least
hit rate, ties broken toward the larger age. -/
def evictCandidate {α : Type} (m : JsMap (CacheEntry α)) (now : Nat) : Option String :=
  (m.foldl (evictStep now) none).map (fun t => t.1)

/-- evictLeastUsed(): delete the candidate; `if (leastUsedKey)` skips the
delete when the candidate is null or the empty string (falsy in JS). -/
def evictLeastUsed {α : Type} (m : JsMap (CacheEntry α)) (now : Nat) :
    JsMap (CacheEntry α) :=
  match evictCandidate m now with
  | none => m
  | some k => if k = "" then m else mapDelete m k

/-- set(key, data, ttl?): evict (frequency-biased) when size ≥ maxSize,
then insert a fresh entry. -/
def memSet {α : Type} (s : MemoryCacheStrategy α) (k : String) (v : α)
    (ttl : Option Nat) (now : Nat) : MemoryCacheStrategy α :=
  let cache1 :=
    if s.maxSize ≤ s.cache.length then evictLeastUsed s.cache now else s.cache
  { s with cache := mapSet cache1 k (newEntry v ttl now) }

/-- has(key): present and not expired; mutates nothing. -/
def memHas {α : Type} (s : MemoryCacheStrategy α) (k : String) (now : Nat) : Bool :=
  match mapGet s.cache k with
  | some e => ! entryIsExpired e now
  | none => false

/-- cleanup(): collect the expired keys, then delete each. -/
def memCleanup {α : Type} (s : MemoryCacheStrategy α) (now : Nat) :
    MemoryCacheStrategy α :=
  let expiredKeys := (s.cache.filter (fun p => entryIsExpired p.2 now)).map Prod.fst
  { s with cache := expiredKeys.foldl mapDelete s.cache }

/-- clear(). -/
def memClear {α : Type} (s : MemoryCacheStrategy α) : MemoryCacheStrategy α :=
  { s with cache := [] }

/-- getStats().size. -/
def memStatsSize {α : Type} (s : MemoryCacheStrategy α) : Nat := s.cache.length

-- ============================================================================
-- LRU CACHE STRATEGY (LRUCacheStrategy, cache.ts)
-- ============================================================================

/-- LRUCacheStrategy: a Map of entries in recency order (front = least
recently used) plus the configured max size. -/
structure LRUCacheStrategy (α : Type) where
  cache : JsMap (CacheEntry α)
  maxSize : Nat
deriving Repr

/-- get(key): as memGet, but a valid hit is moved to the end of the map
(most recently used) before its hits are incremented. -/
def lruGet {α : Type} (s : LRUCacheStrategy α) (k : String) (now : Nat) :
    Option (CacheEntry α) × LRUCacheStrategy α :=
  match mapGet s.cache k with
  | none => (none, s)
  | some e =>
      if entryIsExpired e now then
        (none, { s with cache := mapDelete s.cache k })
      else
        let bumped := { e with hits := e.hits + 1 }
        (some bumped, { s with cache := mapDelete s.cache k ++ [(k, bumped)] })

/-- set(key, data, ttl?): when size ≥ maxSize delete the first key of the
map (`if (firstKey)` skips null and the empty string), then insert. -/
def lruSet {α : Type} (s : LRUCacheStrategy α) (k : String) (v : α)
    (ttl : Option Nat) (now : Nat) : LRUCacheStrategy α :=
  let cache1 :=
    if s.maxSize ≤ s.cache.length then
      match s.cache with
      | [] => s.cache
      | (k0, _) :: _ => if k0 = "" then s.cache else mapDelete s.cache k0
    else s.cache
  { s with cache := mapSet cache1 k (newEntry v ttl now) }

/-- has(key). -/
def lruHas {α : Type} (s : LRUCacheStrategy α) (k : String) (now : Nat) : Bool :=
  match mapGet s.cache k with
  | some e => ! entryIsExpired e now
  | none => false

/-- cleanup(). -/
def lruCleanup {α : Type} (s : LRUCacheStrategy α) (now : Nat) :
    LRUCacheStrategy α :=
  let expiredKeys := (s.cache.filter (fun p => entryIsExpired p.2 now)).map Prod.fst
  { s with cache := expiredKeys.foldl mapDelete s.cache }

/-- clear(). -/
def lruClear {α : Type} (s : LRUCacheStrategy α) : LRUCacheStrategy α :=
  { s with cache := [] }

/-- getStats().size. -/
def lruStatsSize {α : Type} (s : LRUCacheStrategy α) : Nat := s.cache.length

-- ============================================================================
-- TRANSLATION CACHE MANAGER (TranslationCacheManager, cache.ts)
-- ============================================================================

/-- TranslationCacheManager: the locale tier (Memory), the section tier
(LRU), the key tier (Memory, double capacity) and the configured ttl. -/
structure TranslationCacheManager where
  localeCache : MemoryCacheStrategy TransValue
  sectionCache : LRUCacheStrategy TransValue
  keyCache : MemoryCacheStrategy String
  ttl : Nat
deriving Repr

def localeKey (locale : String) : String := "locale:" ++ locale

def sectionKey (locale sec : String) : String :=
  "section:" ++ locale ++ ":" ++ sec

def keyKey (locale key : String) : String := "key:" ++ locale ++ ":" ++ key

def getLocaleCacheM (mgr : TranslationCacheManager) (locale : String) (now : Nat) :
    Option (CacheEntry TransValue) × TranslationCacheManager :=
  let r := memGet mgr.localeCache (localeKey locale) now
  (r.1, { mgr with localeCache := r.2 })

def setLocaleCacheM (mgr : TranslationCacheManager) (locale : String)
    (data : TransValue) (now : Nat) : TranslationCacheManager :=
  { mgr with localeCache := memSet mgr.localeCache (localeKey locale) data (some mgr.ttl) now }

def hasLocaleCacheM (mgr : TranslationCacheManager) (locale : String) (now : Nat) : Bool :=
  memHas mgr.localeCache (localeKey locale) now

def getSectionCacheM (mgr : TranslationCacheManager) (locale sec : String) (now : Nat) :
    Option (CacheEntry TransValue) × TranslationCacheManager :=
  let r := lruGet mgr.sectionCache (sectionKey locale sec) now
  (r.1, { mgr with sectionCache := r.2 })

def setSectionCacheM (mgr : TranslationCacheManager) (locale sec : String)
    (data : TransValue) (now : Nat) : TranslationCacheManager :=
  { mgr with sectionCache := lruSet mgr.sectionCache (sectionKey locale sec) data (some mgr.ttl) now }

def hasSectionCacheM (mgr : TranslationCacheManager) (locale sec : String) (now : Nat) : Bool :=
  lruHas mgr.sectionCache (sectionKey locale sec) now

def getKeyCacheM (mgr : TranslationCacheManager) (locale key : String) (now : Nat) :
    Option (CacheEntry String) × TranslationCacheManager :=
  let r := memGet mgr.keyCache (keyKey locale key) now
  (r.1, { mgr with keyCache := r.2 })

def setKeyCacheM (mgr : TranslationCacheManager) (locale key value : String)
    (now : Nat) : TranslationCacheManager :=
  { mgr with keyCache := memSet mgr.keyCache (keyKey locale key) value (some mgr.ttl) now }

def hasKeyCacheM (mgr : TranslationCacheManager) (locale key : String) (now : Nat) : Bool :=
  memHas mgr.keyCache (keyKey locale key) now

/-- clearAll(): every tier dropped. -/
def clearAllM (mgr : TranslationCacheManager) : TranslationCacheManager :=
  { mgr with
    localeCache := memClear mgr.localeCache
    sectionCache := lruClear mgr.sectionCache
    keyCache := memClear mgr.keyCache }

/-- clearLocale(locale): the source clears every tier entirely (the locale
argument is ignored), as its own comment admits. -/
def clearLocaleM (mgr : TranslationCacheManager) (_locale : String) :
    TranslationCacheManager :=
  { mgr with
    localeCache := memClear mgr.localeCache
    sectionCache := lruClear mgr.sectionCache
    keyCache := memClear mgr.keyCache }

-- ============================================================================
-- ERROR TAXONOMY (errors.ts)
-- ============================================================================

/-- The error classes of errors.ts (I18nError and its subclasses; plainError
is a bare JS `Error`, thrown by code that does not use the taxonomy). -/
inductive ErrKind : Type
  | i18nError
  | translationLoadError
  | translationKeyError
  | sectionLoadError
  | moduleLoadError
  | networkError
  | cacheError
  | configurationError
deriving DecidableEq, Repr

/-- error.constructor.name, the key of ErrorTracker's per-type counters. -/
def errClassName : ErrKind → String
  | .i18nError => "I18nError"
  | .translationLoadError => "TranslationLoadError"
  | .translationKeyError => "TranslationKeyError"
  | .sectionLoadError => "SectionLoadError"
  | .moduleLoadError => "ModuleLoadError"
  | .networkError => "NetworkError"
  | .cacheError => "CacheError"
  | .configurationError => "ConfigurationError"

/-- ErrorRecoveryManager.getErrorType's vocabulary. -/
def errorTypeName : ErrKind → String
  | .networkError => "network"
  | .translationLoadError => "translation_load"
  | .translationKeyError => "translation_key"
  | .sectionLoadError => "section_load"
  | .moduleLoadError => "module_load"
  | .cacheError => "cache"
  | .configurationError => "configuration"
  | .i18nError => "unknown"

/-- A raised I18nError value: its class and the locale of its context. -/
structure I18nErrorV where
  kind : ErrKind
  locale : Option String
deriving DecidableEq, Repr

-- ============================================================================
-- RECOVERY STRATEGIES (ErrorRecoveryManager, errors.ts)
-- ============================================================================

/-- ErrorRecoveryStrategy: the tagged union of §4.3; retryCount, retryDelay
and fallbackLocale are optional fields. -/
inductive RecoveryStrategy : Type
  | retry (retryCount : Option Nat) (retryDelay : Option Nat)
  | fallback (fallbackLocale : Option String)
  | skip
  | abort
deriving DecidableEq, Repr

/-- initializeDefaultStrategies(): the table built in the constructor. -/
def defaultStrategies : JsMap RecoveryStrategy :=
  [("network", .retry (some 3) (some 1000)),
   ("translation_load", .fallback (some "en")),
   ("translation_key", .skip),
   ("cache", .retry (some 1) (some 100)),
   ("configuration", .abort)]

/-- getRecoveryStrategy: table lookup by the error's category, default skip. -/
def getRecoveryStrategy (table : JsMap RecoveryStrategy) (kind : ErrKind) :
    RecoveryStrategy :=
  (mapGet table (errorTypeName kind)).getD .skip

-- ============================================================================
-- ERROR TRACKER (ErrorTracker, errors.ts)
-- ============================================================================

/-- ErrorTracker: bounded FIFO log, per-class and per-locale counters, and
the recovery attempt/success counters. -/
structure ErrorTracker where
  errorLog : List (ErrKind × Option String)
  errorCounts : JsMap Nat
  localeErrorCounts : JsMap Nat
  recoverySuccessCount : Nat
  recoveryAttemptCount : Nat
  maxLogSize : Nat
deriving DecidableEq, Repr

/-- trackError: push to the log (shift the oldest once over maxLogSize),
bump the per-class counter and, when a locale is in context, the per-locale
counter. -/
def trackError (t : ErrorTracker) (kind : ErrKind) (locale : Option String) :
    ErrorTracker :=
  let log1 := t.errorLog ++ [(kind, locale)]
  let log2 := if t.maxLogSize < log1.length then log1.drop 1 else log1
  let counts :=
    mapSet t.errorCounts (errClassName kind)
      ((mapGet t.errorCounts (errClassName kind)).getD 0 + 1)
  let lcounts :=
    match locale with
    | some l => mapSet t.localeErrorCounts l ((mapGet t.localeErrorCounts l).getD 0 + 1)
    | none => t.localeErrorCounts
  { t with errorLog := log2, errorCounts := counts, localeErrorCounts := lcounts }

/-- trackRecoveryAttempt(success). -/
def trackRecoveryAttempt (t : ErrorTracker) (success : Bool) : ErrorTracker :=
  { t with
    recoveryAttemptCount := t.recoveryAttemptCount + 1
    recoverySuccessCount := t.recoverySuccessCount + (if success then 1 else 0) }

-- ============================================================================
-- RECOVERY EXECUTOR (ErrorRecoveryExecutor, errors.ts)
-- ============================================================================

/-- What one invocation of a recovery callback settles to: a boolean, or a
rejection (which the executor catches). -/
inductive CallbackResult : Type
  | ok (b : Bool)
  | thrown
deriving DecidableEq, Repr

/-- The shared mutable state a recovery callback may touch: the cache
manager and the error tracker (both singletons in the source). -/
abbrev LoadSt : Type := TranslationCacheManager × ErrorTracker

/-- A recovery callback: receives the strategy (as in the source) and the
shared state, and settles to a CallbackResult with an updated state. -/
abbrev RecoveryCb : Type := RecoveryStrategy → LoadSt → CallbackResult × LoadSt

/-- What executeRecovery observably did: the boolean it returned, how many
times the callback ran, and the total retry delay waited. -/
structure RecoveryRun where
  success : Bool
  invocations : Nat
  waited : Nat
deriving DecidableEq, Repr

/-- JS `x || d` on an optional count: undefined and 0 are falsy. -/
def jsOrNat (v : Option Nat) (dflt : Nat) : Nat :=
  match v with
  | some n => if n = 0 then dflt else n
  | none => dflt

/-- executeRetryStrategy's loop: invoke, stop on `true`, otherwise wait
retryDelay (except after the final attempt) and try again; callback
rejections are caught and count as a failed attempt. -/
def runRetry (cb : RecoveryCb) (strat : RecoveryStrategy) (delayMs : Nat) :
    Nat → LoadSt → RecoveryRun × LoadSt
  | 0, s => (⟨false, 0, 0⟩, s)
  | remaining + 1, s =>
      match cb strat s with
      | (.ok true, s1) => (⟨true, 1, 0⟩, s1)
      | (_, s1) =>
          if remaining = 0 then (⟨false, 1, 0⟩, s1)
          else
            let rs := runRetry cb strat delayMs remaining s1
            (⟨rs.1.success, rs.1.invocations + 1, rs.1.waited + delayMs⟩, rs.2)

/-- executeStrategy: dispatch on the strategy type. retry normalizes its
parameters through `|| 3` and `|| 1000`; fallback invokes the callback once
and catches a rejection as false; skip and abort never invoke it. -/
def executeStrategy (strat : RecoveryStrategy) (cb : RecoveryCb) (s : LoadSt) :
    RecoveryRun × LoadSt :=
  match strat with
  | .retry rc rd => runRetry cb strat (jsOrNat rd 1000) (jsOrNat rc 3) s
  | .fallback _ =>
      match cb strat s with
      | (.ok b, s1) => (⟨b, 1, 0⟩, s1)
      | (.thrown, s1) => (⟨false, 1, 0⟩, s1)
  | .skip => (⟨true, 0, 0⟩, s)
  | .abort => (⟨false, 0, 0⟩, s)

/-- executeRecovery: pick the mapped strategy, execute it, and record the
attempt (and its success) in the tracker's recovery counters. -/
def executeRecovery (table : JsMap RecoveryStrategy) (kind : ErrKind)
    (cb : RecoveryCb) (s : LoadSt) : RecoveryRun × LoadSt :=
  let rs := executeStrategy (getRecoveryStrategy table kind) cb s
  (rs.1, (rs.2.1, trackRecoveryAttempt rs.2.2 rs.1.success))

-- ============================================================================
-- DYNAMIC MODULE LOADER (DynamicModuleLoader, loader.ts)
-- ============================================================================

/-- The network: what fetching /i18n/{locale}.json settles to, keyed by the
locale (the path is a pure function of the locale). An error stands for a
non-ok response, a rejected fetch, or malformed JSON. -/
abbrev FetchOracle : Type := String → Except String TransValue

/-- The error class of performLoad's wrapError outcome: the context carries
a locale and, for a section load, a section, so the wrapped error is a
SectionLoadError when a section was requested and a TranslationLoadError
otherwise. -/
def wrapErrorKind (sec : Option String) : ErrKind :=
  match sec with
  | some _ => .sectionLoadError
  | none => .translationLoadError

/-- loadFallback: fetch the full fallback locale file, slice the section if
one was asked; never touches any cache tier; wraps a failure in a
TranslationLoadError for the fallback locale. -/
def loadFallback (fetch : FetchOracle) (locale : String) (sec : Option String) :
    Except I18nErrorV TransValue :=
  match fetch locale with
  | .ok fullData => .ok (sectionExtract fullData sec)
  | .error _ => .error ⟨.translationLoadError, some locale⟩

/-- The recovery callback performLoad hands to handleError: for a fallback
strategy with a truthy fallbackLocale, load the fallback and settle to the
truthiness of its payload (a rejection propagates); otherwise false. -/
def dynamicLoaderCallback (fetch : FetchOracle) (sec : Option String) : RecoveryCb :=
  fun strat s =>
    match strat with
    | .fallback (some fl) =>
        if fl = "" then (.ok false, s)
        else
          match loadFallback fetch fl sec with
          | .ok d => (.ok (truthy d), s)
          | .error _ => (.thrown, s)
    | _ => (.ok false, s)

/-- performLoad: fetch the full locale file; on success slice the section
if asked, write the matching cache tier and resolve. On failure, wrap and
track the error, run recovery (fallback strategy loads the strategy's
fallback locale); if recovery succeeded, resolve to a fresh direct load of
the configured fallback locale, else reject with a TranslationLoadError
for the requested locale. -/
def performLoad (fetch : FetchOracle) (table : JsMap RecoveryStrategy)
    (cfgFallback : String) (s : LoadSt) (locale : String) (sec : Option String)
    (now : Nat) : Except I18nErrorV TransValue × LoadSt :=
  match fetch locale with
  | .ok fullData =>
      let data := sectionExtract fullData sec
      let mgr1 :=
        match sec with
        | some sc => setSectionCacheM s.1 locale sc data now
        | none => setLocaleCacheM s.1 locale data now
      (.ok data, (mgr1, s.2))
  | .error _ =>
      let kind := wrapErrorKind sec
      let s1 : LoadSt := (s.1, trackError s.2 kind (some locale))
      let rs := executeRecovery table kind (dynamicLoaderCallback fetch sec) s1
      if rs.1.success then
        match loadFallback fetch cfgFallback sec with
        | .ok d => (.ok d, rs.2)
        | .error e => (.error e, rs.2)
      else
        (.error ⟨.translationLoadError, some locale⟩, rs.2)

/-- The loader's promise bookkeeping: the in-flight map (de-duplication key
to promise id), the next fresh promise id, and how many network fetches
have been issued. -/
structure LoaderState where
  loadingPromises : JsMap Nat
  nextPromiseId : Nat
  fetchCount : Nat
deriving DecidableEq, Repr

/-- The de-duplication key of load(): `locale:section` or the bare locale. -/
def dedupKey (locale : String) (sec : Option String) : String :=
  match sec with
  | some s => locale ++ ":" ++ s
  | none => locale

/-- What the synchronous prefix of load() hands its caller: an already
pending promise, data straight from the matching cache tier, or a freshly
started promise (whose fetch was just issued). -/
inductive LoadStartResult : Type
  | awaiting (pid : Nat)
  | cached (data : TransValue)
  | started (pid : Nat)
deriving Repr

/-- The synchronous prefix of DynamicModuleLoader.load, up to the first
await: return the pending promise of an identical in-flight target, else
the matching cache tier's hit, else register a fresh promise under the
de-duplication key — at which point performLoad has issued its fetch. -/
def loadStart (st : LoaderState) (mgr : TranslationCacheManager)
    (locale : String) (sec : Option String) (now : Nat) :
    LoadStartResult × LoaderState × TranslationCacheManager :=
  let key := dedupKey locale sec
  match mapGet st.loadingPromises key with
  | some pid => (.awaiting pid, st, mgr)
  | none =>
      let hit :=
        match sec with
        | some sc => getSectionCacheM mgr locale sc now
        | none => getLocaleCacheM mgr locale now
      match hit.1 with
      | some e => (.cached e.data, st, hit.2)
      | none =>
          (.started st.nextPromiseId,
           { loadingPromises := mapSet st.loadingPromises key st.nextPromiseId,
             nextPromiseId := st.nextPromiseId + 1,
             fetchCount := st.fetchCount + 1 },
           hit.2)

/-- n successive synchronous load() calls for the same target, all issued
before any of them resolves. -/
def loadStartN (locale : String) (sec : Option String) (now : Nat) :
    Nat → LoaderState → TranslationCacheManager →
    List LoadStartResult × LoaderState × TranslationCacheManager
  | 0, st, mgr => ([], st, mgr)
  | n + 1, st, mgr =>
      let r := loadStart st mgr locale sec now
      let rest := loadStartN locale sec now n r.2.1 r.2.2
      (r.1 :: rest.1, rest.2)

/-- What a caller of load() eventually observes, given how each promise id
resolves: callers holding the same promise observe the same value. -/
def observeLoad (res : Nat → TransValue) : LoadStartResult → TransValue
  | .awaiting pid => res pid
  | .started pid => res pid
  | .cached d => d

/-- load() in a sequential (fully awaited) execution, where no identical
load is in flight at call time: the cache check of load, then performLoad.
The in-flight entry load() registers is removed again on both the success
and the failure path, so it is invisible to later sequential calls. -/
def moduleLoad (fetch : FetchOracle) (table : JsMap RecoveryStrategy)
    (cfgFallback : String) (s : LoadSt) (locale : String) (sec : Option String)
    (now : Nat) : Except I18nErrorV TransValue × LoadSt :=
  let hit :=
    match sec with
    | some sc => getSectionCacheM s.1 locale sc now
    | none => getLocaleCacheM s.1 locale now
  match hit.1 with
  | some e => (.ok e.data, (hit.2, s.2))
  | none => performLoad fetch table cfgFallback (hit.2, s.2) locale sec now

-- ============================================================================
-- KEY-LEVEL LOADER (KeyLevelLoader, loader.ts)
-- ============================================================================

/-- Descend a dotted key's parts: at each part the current value must be an
object with that property (`value && typeof value === 'object' && part in
value` — undefined and string leaves stop the walk). -/
def descend : TransValue → List String → Option TransValue
  | v, [] => some v
  | .obj fields, part :: rest =>
      match mapGet fields part with
      | some v => descend v rest
      | none => none
  | .str _, _ :: _ => none
  | .undef, _ :: _ => none

/-- key.split('.') written over the character list (String.splitOn computes
the same parts but does not reduce in the kernel). -/
def splitParts : List Char → List String
  | [] => [""]
  | c :: rest =>
      let r := splitParts rest
      if c = '.' then "" :: r
      else
        match r with
        | [] => [String.mk [c]]
        | h :: t => String.mk (c :: h.data) :: t

/-- extractKeyValue: split the key on '.', descend, and return the terminal
string; any missing segment or non-string terminal returns the key itself
instead of throwing. -/
def extractKeyValue (data : TransValue) (key : String) : String :=
  match descend data (splitParts key.data) with
  | some (.str s) => s
  | _ => key

/-- loadKeyFromFallback: load the fallback locale via the module loader and
extract; any loader failure degrades to the key itself. -/
def loadKeyFromFallback (fetch : FetchOracle) (table : JsMap RecoveryStrategy)
    (cfgFallback : String) (s : LoadSt) (locale key : String) (now : Nat) :
    String × LoadSt :=
  match moduleLoad fetch table cfgFallback s locale none now with
  | (.ok localeData, s1) => (extractKeyValue localeData key, s1)
  | (.error _, s1) => (key, s1)

/-- The recovery callback loadKey hands to handleError: for a fallback
strategy with a truthy fallbackLocale, resolve the key from the fallback
locale and settle to the truthiness of the resulting string. -/
def keyLoaderCallback (fetch : FetchOracle) (table : JsMap RecoveryStrategy)
    (cfgFallback : String) (key : String) (now : Nat) : RecoveryCb :=
  fun strat s =>
    match strat with
    | .fallback (some fl) =>
        if fl = "" then (.ok false, s)
        else
          let r := loadKeyFromFallback fetch table cfgFallback s fl key now
          (.ok (decide (r.1 ≠ "")), r.2)
    | _ => (.ok false, s)

/-- loadKey: serve the key-tier cache if it hits; otherwise load the full
locale, extract the key's value (extraction failure silently yields the key
itself) and cache whatever was extracted at key granularity. A loader
failure is tracked and offered to recovery; the final fallback is the raw
key. -/
def loadKey (fetch : FetchOracle) (table : JsMap RecoveryStrategy)
    (cfgFallback : String) (s : LoadSt) (locale key : String) (now : Nat) :
    String × LoadSt :=
  let g := getKeyCacheM s.1 locale key now
  match g.1 with
  | some e => (e.data, (g.2, s.2))
  | none =>
      match moduleLoad fetch table cfgFallback (g.2, s.2) locale none now with
      | (.ok localeData, s1) =>
          let value := extractKeyValue localeData key
          (value, (setKeyCacheM s1.1 locale key value now, s1.2))
      | (.error e, s1) =>
          let s2 : LoadSt := (s1.1, trackError s1.2 e.kind e.locale)
          let rs := executeRecovery table e.kind
            (keyLoaderCallback fetch table cfgFallback key now) s2
          if rs.1.success then
            loadKeyFromFallback fetch table cfgFallback rs.2 cfgFallback key now
          else
            (key, rs.2)

-- ============================================================================
-- STATE MANAGER (I18nStateManager, state.ts)
-- ============================================================================

/-- The class of a value thrown by state-manager code: a bare JS `Error`,
or one of the i18n taxonomy's classes. -/
inductive ThrownClass : Type
  | plainError
  | ofTaxonomy (kind : ErrKind)
deriving DecidableEq, Repr

/-- The slice of I18nStateManager state that setCurrentLocale touches:
the current locale, the supported set, localStorage, and the record of
onLocaleChange notifications sent to observers. -/
structure StateMgr where
  currentLocale : String
  supportedLocales : List String
  storage : JsMap String
  localeChangeNotices : List String
deriving DecidableEq, Repr

/-- setCurrentLocale: an unsupported locale throws a bare `Error` and
changes nothing; otherwise update the current locale, notify the
onLocaleChange observers, and persist under 'preferred-locale'. -/
def setCurrentLocale (st : StateMgr) (locale : String) :
    Option ThrownClass × StateMgr :=
  if locale ∈ st.supportedLocales then
    (none,
     { st with
       currentLocale := locale
       localeChangeNotices := st.localeChangeNotices ++ [locale]
       storage := mapSet st.storage "preferred-locale" locale })
  else
    (some .plainError, st)

-- ============================================================================
-- FACADE (EnterpriseI18nSystem.getTranslation, index.ts)
-- ============================================================================

/-- getTranslation: resolve the target locale (`locale || currentLocale`,
so an empty-string argument also falls back to the current locale), call
the host translator, and catch any exception by returning the key. The
host translator vueI18n.global.t is external and modelled as an oracle
that either returns a string or throws. -/
def targetLocaleOf (currentLocale : String) (locale : Option String) : String :=
  match locale with
  | some l => if l = "" then currentLocale else l
  | none => currentLocale

def getTranslation (t : String → String → Except Unit String)
    (currentLocale : String) (key : String) (locale : Option String) : String :=
  match t key (targetLocaleOf currentLocale locale) with
  | .ok s => s
  | .error _ => key

-- ============================================================================
-- DERIVED NOTIONS AND FIXTURES USED BY THE THEOREMS
-- ============================================================================

/-- Every key of the map is non-empty — true of every key the
TranslationCacheManager ever forms (each starts with its tier's prefix). -/
def GoodKeys {α : Type} (m : JsMap α) : Prop := ∀ p ∈ m, p.1 ≠ ""

/-- A sequence of set operations on a tier: key, value, ttl argument, and
the clock at the call. -/
abbrev SetOps (α : Type) : Type := List (String × α × Option Nat × Nat)

/-- Apply a sequence of set operations to a Memory tier. -/
def memSetAll {α : Type} (s : MemoryCacheStrategy α) : SetOps α → MemoryCacheStrategy α
  | [] => s
  | (k, v, ttl, now) :: rest => memSetAll (memSet s k v ttl now) rest

/-- Apply a sequence of set operations to an LRU tier. -/
def lruSetAll {α : Type} (s : LRUCacheStrategy α) : SetOps α → LRUCacheStrategy α
  | [] => s
  | (k, v, ttl, now) :: rest => lruSetAll (lruSet s k v ttl now) rest

/-- The cache tier matching a load target has no entry at all (a genuinely
cold target, not merely an expired one). -/
def tierMiss (mgr : TranslationCacheManager) (locale : String)
    (sec : Option String) : Prop :=
  match sec with
  | some sc => mapGet mgr.sectionCache.cache (sectionKey locale sc) = none
  | none => mapGet mgr.localeCache.cache (localeKey locale) = none

/-- The state reached after n invocations of a recovery callback. -/
def iterateCb (cb : RecoveryCb) (strat : RecoveryStrategy) :
    Nat → LoadSt → LoadSt
  | 0, s => s
  | n + 1, s => iterateCb cb strat n (cb strat s).2

/-- A fresh cache manager, as the TranslationCacheManager constructor
builds it: Memory locale tier, LRU section tier, and a Memory key tier of
double capacity. -/
def mkCacheManager (maxSize ttl : Nat) : TranslationCacheManager :=
  { localeCache := { cache := [], maxSize := maxSize }
    sectionCache := { cache := [], maxSize := maxSize }
    keyCache := { cache := [], maxSize := maxSize * 2 }
    ttl := ttl }

/-- A fresh ErrorTracker (maxLogSize 100 as in the source). -/
def emptyTracker : ErrorTracker :=
  { errorLog := [], errorCounts := [], localeErrorCounts := []
    recoverySuccessCount := 0, recoveryAttemptCount := 0, maxLogSize := 100 }

/-- A payload in which 'a.b' exists (a string) but 'a.b.c' does not. -/
def samplePayload : TransValue := .obj [("a", .obj [("b", .str "x")])]

/-- A network where only locale 'en' resolves, to samplePayload. -/
def sampleFetchEn : FetchOracle :=
  fun l => if l = "en" then .ok samplePayload else .error "network down"

/-- A network where 'fr' fails and the fallback locales 'en' and 'vi'
resolve. -/
def sampleFetchFallback : FetchOracle :=
  fun l =>
    if l = "en" then .ok (.obj [])
    else if l = "vi" then .ok (.str "v")
    else .error "boom"

/-- The initial state-manager slice: defaultLocale 'vi', supported locales
['en', 'vi'], empty storage, no notifications yet. -/
def initialStateMgr : StateMgr :=
  { currentLocale := "vi", supportedLocales := ["en", "vi"]
    storage := [], localeChangeNotices := [] }

/-- The cache state of the repository's clearLocale test: 'en' cached at
the locale, section and key tiers, 'vi' at the locale and section tiers
(test config: maxSize 5, ttl 1000). -/
def clearLocaleScenario : TranslationCacheManager :=
  setSectionCacheM
    (setLocaleCacheM
      (setKeyCacheM
        (setSectionCacheM
          (setLocaleCacheM (mkCacheManager 5 1000) "en" (.str "value") 0)
          "en" "common" (.obj [("hello", .str "Hello")]) 0)
        "en" "common.hello" "Hello" 0)
      "vi" (.str "gia tri") 0)
    "vi" "common" (.obj [("hello", .str "Xin chao")]) 0

-- ============================================================================
-- MAP LEMMAS
-- ============================================================================

theorem mapGet_mapSet_self {α : Type} (m : JsMap α) (k : String) (v : α) :
    mapGet (mapSet m k v) k = some v := by
  induction m with
  | nil => simp [mapSet, mapGet]
  | cons p rest ih =>
      obtain ⟨k', w⟩ := p
      by_cases h : k' = k
      · simp [mapSet, mapGet, h]
      · simp [mapSet, mapGet, h, ih]

theorem mapGet_mapSet_ne {α : Type} (m : JsMap α) (k k' : String) (v : α)
    (h : k ≠ k') : mapGet (mapSet m k v) k' = mapGet m k' := by
  induction m with
  | nil => simp [mapSet, mapGet, h]
  | cons p rest ih =>
      obtain ⟨k0, w⟩ := p
      by_cases h0 : k0 = k
      · subst h0
        simp [mapSet, mapGet, h]
      · simp [mapSet, mapGet, h0, ih]

theorem mapGet_mapDelete_self {α : Type} (m : JsMap α) (k : String) :
    mapGet (mapDelete m k) k = none := by
  induction m with
  | nil => simp [mapDelete, mapGet]
  | cons p rest ih =>
      obtain ⟨k0, w⟩ := p
      by_cases h0 : k0 = k
      · simp [mapDelete, h0, ih]
      · simp [mapDelete, mapGet, h0, ih]

theorem mapGet_mapDelete_ne {α : Type} (m : JsMap α) (k k' : String)
    (h : k ≠ k') : mapGet (mapDelete m k) k' = mapGet m k' := by
  induction m with
  | nil => simp [mapDelete]
  | cons p rest ih =>
      obtain ⟨k0, w⟩ := p
      by_cases h0 : k0 = k
      · subst h0
        simp [mapDelete, mapGet, h, ih]
      · simp [mapDelete, mapGet, h0, ih]

theorem mapGet_some_mem {α : Type} (m : JsMap α) (k : String) (v : α)
    (h : mapGet m k = some v) : (k, v) ∈ m := by
  induction m with
  | nil => simp [mapGet] at h
  | cons p rest ih =>
      obtain ⟨k0, w⟩ := p
      by_cases h0 : k0 = k
      · subst h0
        simp [mapGet] at h
        simp [h]
      · simp [mapGet, h0] at h
        exact List.mem_cons_of_mem _ (ih h)

theorem mapGet_eq_none_of_not_mem {α : Type} (m : JsMap α) (k : String)
    (h : k ∉ mapKeys m) : mapGet m k = none := by
  induction m with
  | nil => rfl
  | cons p rest ih =>
      obtain ⟨k0, w⟩ := p
      have h0 : k0 ≠ k := by
        intro e
        apply h
        simp [mapKeys, e]
      have h1 : k ∉ mapKeys rest := by
        intro e
        apply h
        simp [mapKeys] at e ⊢
        exact Or.inr e
      simp [mapGet, h0, ih h1]

theorem mem_mapKeys_of_mapGet_some {α : Type} (m : JsMap α) (k : String) (v : α)
    (h : mapGet m k = some v) : k ∈ mapKeys m := by
  have := mapGet_some_mem m k v h
  simpa [mapKeys] using List.mem_map_of_mem Prod.fst this

theorem length_mapSet_le {α : Type} (m : JsMap α) (k : String) (v : α) :
    (mapSet m k v).length ≤ m.length + 1 := by
  induction m with
  | nil => simp [mapSet]
  | cons p rest ih =>
      obtain ⟨k0, w⟩ := p
      by_cases h0 : k0 = k
      · simp [mapSet, h0]
      · simp only [mapSet, if_neg h0, List.length_cons]
        omega

theorem length_mapDelete_le {α : Type} (m : JsMap α) (k : String) :
    (mapDelete m k).length ≤ m.length := by
  induction m with
  | nil => simp [mapDelete]
  | cons p rest ih =>
      obtain ⟨k0, w⟩ := p
      by_cases h0 : k0 = k
      · simp only [mapDelete, if_pos h0, List.length_cons]
        omega
      · simp only [mapDelete, if_neg h0, List.length_cons]
        omega

theorem length_mapDelete_lt {α : Type} (m : JsMap α) (k : String)
    (h : k ∈ mapKeys m) : (mapDelete m k).length < m.length := by
  induction m with
  | nil => simp [mapKeys] at h
  | cons p rest ih =>
      obtain ⟨k0, w⟩ := p
      by_cases h0 : k0 = k
      · have := length_mapDelete_le rest k
        simp only [mapDelete, if_pos h0, List.length_cons]
        omega
      · have h1 : k ∈ mapKeys rest := by
          simp [mapKeys] at h ⊢
          rcases h with h | h
          · exact absurd h.symm h0
          · exact h
        have := ih h1
        simp only [mapDelete, if_neg h0, List.length_cons]
        omega

theorem mem_of_mem_mapSet {α : Type} (m : JsMap α) (k : String) (v : α)
    (p : String × α) (h : p ∈ mapSet m k v) : p = (k, v) ∨ p ∈ m := by
  induction m with
  | nil => simpa [mapSet] using h
  | cons q rest ih =>
      obtain ⟨k0, w⟩ := q
      by_cases h0 : k0 = k
      · simp only [mapSet, if_pos h0] at h
        rcases List.mem_cons.mp h with h1 | h1
        · exact Or.inl h1
        · exact Or.inr (List.mem_cons_of_mem _ h1)
      · simp only [mapSet, if_neg h0] at h
        rcases List.mem_cons.mp h with h1 | h1
        · exact Or.inr (by simp [h1])
        · rcases ih h1 with h2 | h2
          · exact Or.inl h2
          · exact Or.inr (List.mem_cons_of_mem _ h2)

theorem mem_of_mem_mapDelete {α : Type} (m : JsMap α) (k : String)
    (p : String × α) (h : p ∈ mapDelete m k) : p ∈ m := by
  induction m with
  | nil => simp [mapDelete] at h
  | cons q rest ih =>
      obtain ⟨k0, w⟩ := q
      by_cases h0 : k0 = k
      · simp only [mapDelete, if_pos h0] at h
        exact List.mem_cons_of_mem _ (ih h)
      · simp only [mapDelete, if_neg h0] at h
        rcases List.mem_cons.mp h with h1 | h1
        · simp [h1]
        · exact List.mem_cons_of_mem _ (ih h1)

theorem mapGet_foldl_mapDelete_none {α : Type} (ks : List String) (k : String) :
    ∀ m : JsMap α, mapGet m k = none → mapGet (ks.foldl mapDelete m) k = none := by
  induction ks with
  | nil => intro m h; simpa using h
  | cons k0 rest ih =>
      intro m h
      simp only [List.foldl_cons]
      apply ih
      by_cases h0 : k0 = k
      · rw [h0]; exact mapGet_mapDelete_self m k
      · rw [mapGet_mapDelete_ne m k0 k h0]; exact h

theorem mapGet_foldl_mapDelete_of_mem {α : Type} (ks : List String) (k : String)
    (hk : k ∈ ks) : ∀ m : JsMap α, mapGet (ks.foldl mapDelete m) k = none := by
  induction ks with
  | nil => simp at hk
  | cons k0 rest ih =>
      intro m
      simp only [List.foldl_cons]
      rcases List.mem_cons.mp hk with h | h
      · subst h
        exact mapGet_foldl_mapDelete_none rest k _ (mapGet_mapDelete_self m k)
      · exact ih h _

theorem ne_key_of_mem_mapDelete {α : Type} (m : JsMap α) (k : String)
    (p : String × α) (h : p ∈ mapDelete m k) : p.1 ≠ k := by
  induction m with
  | nil => simp [mapDelete] at h
  | cons q rest ih =>
      obtain ⟨k0, w⟩ := q
      by_cases h0 : k0 = k
      · simp only [mapDelete, if_pos h0] at h
        exact ih h
      · simp only [mapDelete, if_neg h0] at h
        rcases List.mem_cons.mp h with h1 | h1
        · rw [h1]
          exact h0
        · exact ih h1

theorem mem_foldl_mapDelete {α : Type} (ks : List String) :
    ∀ (m : JsMap α) (p : String × α), p ∈ ks.foldl mapDelete m →
      p ∈ m ∧ p.1 ∉ ks := by
  induction ks with
  | nil =>
      intro m p h
      simpa using h
  | cons k0 rest ih =>
      intro m p h
      simp only [List.foldl_cons] at h
      obtain ⟨h1, h2⟩ := ih (mapDelete m k0) p h
      refine ⟨mem_of_mem_mapDelete m k0 p h1, ?_⟩
      intro hmem
      rcases List.mem_cons.mp hmem with h3 | h3
      · exact ne_key_of_mem_mapDelete m k0 p h1 h3
      · exact h2 h3

-- ============================================================================
-- EVICTION LEMMAS
-- ============================================================================

theorem evictFold_some {α : Type} (now : Nat) :
    ∀ (m : JsMap (CacheEntry α)) (x : String × ℚ × Nat),
      ∃ y, m.foldl (evictStep now) (some x) = some y ∧
        (y.1 = x.1 ∨ y.1 ∈ mapKeys m) := by
  intro m
  induction m with
  | nil =>
      intro x
      exact ⟨x, rfl, Or.inl rfl⟩
  | cons p rest ih =>
      intro x
      obtain ⟨x1, x2, x3⟩ := x
      simp only [List.foldl_cons]
      have hstep : evictStep now (some (x1, x2, x3)) p = some (p.1, entryHitRate p.2 now, entryAge p.2 now)
          ∨ evictStep now (some (x1, x2, x3)) p = some (x1, x2, x3) := by
        simp only [evictStep]
        by_cases hc : entryHitRate p.2 now < x2 ∨
            (entryHitRate p.2 now = x2 ∧ x3 < entryAge p.2 now)
        · exact Or.inl (by simp [hc])
        · exact Or.inr (by simp [hc])
      rcases hstep with hs | hs
      · rw [hs]
        obtain ⟨y, hy, hk⟩ := ih (p.1, entryHitRate p.2 now, entryAge p.2 now)
        refine ⟨y, hy, Or.inr ?_⟩
        rcases hk with hk | hk
        · rw [hk]
          simp [mapKeys]
        · simp [mapKeys] at hk ⊢
          exact Or.inr hk
      · rw [hs]
        obtain ⟨y, hy, hk⟩ := ih (x1, x2, x3)
        refine ⟨y, hy, ?_⟩
        rcases hk with hk | hk
        · exact Or.inl hk
        · refine Or.inr ?_
          simp [mapKeys] at hk ⊢
          exact Or.inr hk

theorem evictCandidate_cons {α : Type} (now : Nat) (p : String × CacheEntry α)
    (rest : JsMap (CacheEntry α)) :
    ∃ k, evictCandidate (p :: rest) now = some k ∧ k ∈ mapKeys (p :: rest) := by
  obtain ⟨y, hy, hk⟩ :=
    evictFold_some now rest (p.1, entryHitRate p.2 now, entryAge p.2 now)
  refine ⟨y.1, ?_, ?_⟩
  · simp only [evictCandidate, List.foldl_cons, evictStep]
    rw [hy]
    rfl
  · rcases hk with hk | hk
    · rw [hk]
      simp [mapKeys]
    · simp [mapKeys] at hk ⊢
      exact Or.inr hk

theorem exists_val_of_mem_mapKeys {α : Type} (m : JsMap α) (k : String)
    (h : k ∈ mapKeys m) : ∃ v, (k, v) ∈ m := by
  simp only [mapKeys] at h
  obtain ⟨p, hp, he⟩ := List.mem_map.mp h
  exact ⟨p.2, by rwa [show (k, p.2) = p from by rw [← he]]⟩

theorem length_evictLeastUsed_lt {α : Type} (m : JsMap (CacheEntry α)) (now : Nat)
    (hne : m ≠ []) (hg : GoodKeys m) :
    (evictLeastUsed m now).length < m.length := by
  obtain ⟨p, rest, rfl⟩ := List.exists_cons_of_ne_nil hne
  obtain ⟨k, hk, hmem⟩ := evictCandidate_cons now p rest
  have hkne : k ≠ "" := by
    obtain ⟨v, hv⟩ := exists_val_of_mem_mapKeys _ k hmem
    exact hg (k, v) hv
  simp only [evictLeastUsed, hk, if_neg hkne]
  exact length_mapDelete_lt _ k hmem

theorem goodKeys_mapSet {α : Type} (m : JsMap α) (k : String) (v : α)
    (hg : GoodKeys m) (hk : k ≠ "") : GoodKeys (mapSet m k v) := by
  intro p hp
  rcases mem_of_mem_mapSet m k v p hp with h | h
  · rw [h]
    exact hk
  · exact hg p h

theorem goodKeys_mapDelete {α : Type} (m : JsMap α) (k : String)
    (hg : GoodKeys m) : GoodKeys (mapDelete m k) :=
  fun p hp => hg p (mem_of_mem_mapDelete m k p hp)

theorem goodKeys_evictLeastUsed {α : Type} (m : JsMap (CacheEntry α)) (now : Nat)
    (hg : GoodKeys m) : GoodKeys (evictLeastUsed m now) := by
  unfold evictLeastUsed
  cases evictCandidate m now with
  | none => exact hg
  | some k =>
      by_cases hk : k = ""
      · simpa [hk] using hg
      · simpa [hk] using goodKeys_mapDelete m k hg

-- ============================================================================
-- CAPACITY INVARIANT LEMMAS
-- ============================================================================

theorem memSet_invariant {α : Type} (s : MemoryCacheStrategy α) (k : String)
    (v : α) (ttl : Option Nat) (now : Nat) (hmax : 1 ≤ s.maxSize) (hk : k ≠ "")
    (hg : GoodKeys s.cache) (hlen : s.cache.length ≤ s.maxSize) :
    (memSet s k v ttl now).cache.length ≤ s.maxSize ∧
    GoodKeys (memSet s k v ttl now).cache ∧
    (memSet s k v ttl now).maxSize = s.maxSize := by
  refine ⟨?_, ?_, rfl⟩
  · simp only [memSet]
    by_cases hc : s.maxSize ≤ s.cache.length
    · have hne : s.cache ≠ [] := by
        intro he
        rw [he] at hc
        simp at hc
        omega
      have hev := length_evictLeastUsed_lt s.cache now hne hg
      have := length_mapSet_le (evictLeastUsed s.cache now) k (newEntry v ttl now)
      simp only [if_pos hc]
      omega
    · have := length_mapSet_le s.cache k (newEntry v ttl now)
      simp only [if_neg hc]
      omega
  · simp only [memSet]
    by_cases hc : s.maxSize ≤ s.cache.length
    · simp only [if_pos hc]
      exact goodKeys_mapSet _ k _ (goodKeys_evictLeastUsed s.cache now hg) hk
    · simp only [if_neg hc]
      exact goodKeys_mapSet _ k _ hg hk

theorem memSetAll_invariant {α : Type} (ops : SetOps α) :
    ∀ s : MemoryCacheStrategy α, 1 ≤ s.maxSize →
      (∀ op ∈ ops, op.1 ≠ "") → GoodKeys s.cache → s.cache.length ≤ s.maxSize →
      (memSetAll s ops).cache.length ≤ s.maxSize ∧
      GoodKeys (memSetAll s ops).cache ∧ (memSetAll s ops).maxSize = s.maxSize := by
  induction ops with
  | nil =>
      intro s _ _ hg hlen
      exact ⟨hlen, hg, rfl⟩
  | cons op rest ih =>
      intro s hmax hops hg hlen
      obtain ⟨k, v, ttl, now⟩ := op
      have hk : k ≠ "" := hops (k, v, ttl, now) (List.mem_cons_self _ _)
      obtain ⟨h1, h2, h3⟩ := memSet_invariant s k v ttl now hmax hk hg hlen
      have := ih (memSet s k v ttl now) (by rw [h3]; exact hmax)
        (fun op hop => hops op (List.mem_cons_of_mem _ hop)) h2 (by rw [h3]; exact h1)
      simpa only [memSetAll, h3] using this

theorem lruSet_invariant {α : Type} (s : LRUCacheStrategy α) (k : String)
    (v : α) (ttl : Option Nat) (now : Nat) (hmax : 1 ≤ s.maxSize) (hk : k ≠ "")
    (hg : GoodKeys s.cache) (hlen : s.cache.length ≤ s.maxSize) :
    (lruSet s k v ttl now).cache.length ≤ s.maxSize ∧
    GoodKeys (lruSet s k v ttl now).cache ∧
    (lruSet s k v ttl now).maxSize = s.maxSize := by
  simp only [lruSet]
  by_cases hc : s.maxSize ≤ s.cache.length
  · simp only [if_pos hc]
    match hm : s.cache with
    | [] =>
        rw [hm] at hc
        simp at hc
        omega
    | (k0, e0) :: rest =>
        have hk0 : k0 ≠ "" := hg (k0, e0) (by rw [hm]; exact List.mem_cons_self _ _)
        simp only [if_neg hk0]
        have hmem : k0 ∈ mapKeys ((k0, e0) :: rest) := by simp [mapKeys]
        have hdel := length_mapDelete_lt ((k0, e0) :: rest) k0 hmem
        have hset := length_mapSet_le (mapDelete ((k0, e0) :: rest) k0) k (newEntry v ttl now)
        have hglen : ((k0, e0) :: rest).length ≤ s.maxSize := by rw [← hm]; exact hlen
        refine ⟨by omega, ?_, trivial⟩
        exact goodKeys_mapSet _ k _
          (goodKeys_mapDelete _ k0 (by rw [← hm] at *; exact hg)) hk
  · simp only [if_neg hc]
    have := length_mapSet_le s.cache k (newEntry v ttl now)
    exact ⟨by omega, goodKeys_mapSet _ k _ hg hk, trivial⟩

theorem lruSetAll_invariant {α : Type} (ops : SetOps α) :
    ∀ s : LRUCacheStrategy α, 1 ≤ s.maxSize →
      (∀ op ∈ ops, op.1 ≠ "") → GoodKeys s.cache → s.cache.length ≤ s.maxSize →
      (lruSetAll s ops).cache.length ≤ s.maxSize ∧
      GoodKeys (lruSetAll s ops).cache ∧ (lruSetAll s ops).maxSize = s.maxSize := by
  induction ops with
  | nil =>
      intro s _ _ hg hlen
      exact ⟨hlen, hg, rfl⟩
  | cons op rest ih =>
      intro s hmax hops hg hlen
      obtain ⟨k, v, ttl, now⟩ := op
      have hk : k ≠ "" := hops (k, v, ttl, now) (List.mem_cons_self _ _)
      obtain ⟨h1, h2, h3⟩ := lruSet_invariant s k v ttl now hmax hk hg hlen
      have := ih (lruSet s k v ttl now) (by rw [h3]; exact hmax)
        (fun op hop => hops op (List.mem_cons_of_mem _ hop)) h2 (by rw [h3]; exact h1)
      simpa only [lruSetAll, h3] using this

-- ============================================================================
-- RETRY LOOP LEMMAS
-- ============================================================================

theorem runRetry_first_try_success (cb : RecoveryCb) (strat : RecoveryStrategy)
    (d : Nat) (r : Nat) (s : LoadSt) (h : (cb strat s).1 = .ok true) :
    runRetry cb strat d (r + 1) s = (⟨true, 1, 0⟩, (cb strat s).2) := by
  rcases hp : cb strat s with ⟨c, s1⟩
  rw [hp] at h
  simp only at h
  subst h
  simp [runRetry, hp]

theorem runRetry_step_fail (cb : RecoveryCb) (strat : RecoveryStrategy)
    (d : Nat) (r' : Nat) (s : LoadSt) (h : (cb strat s).1 ≠ .ok true) :
    runRetry cb strat d (r' + 1) s =
      if r' = 0 then (⟨false, 1, 0⟩, (cb strat s).2)
      else
        (⟨(runRetry cb strat d r' (cb strat s).2).1.success,
          (runRetry cb strat d r' (cb strat s).2).1.invocations + 1,
          (runRetry cb strat d r' (cb strat s).2).1.waited + d⟩,
         (runRetry cb strat d r' (cb strat s).2).2) := by
  rcases hp : cb strat s with ⟨c, s1⟩
  rw [hp] at h
  simp only at h
  cases c with
  | ok b =>
      cases b with
      | true => simp at h
      | false => simp [runRetry, hp]
  | thrown => simp [runRetry, hp]

theorem runRetry_exhaust (cb : RecoveryCb) (strat : RecoveryStrategy) (d : Nat) :
    ∀ (r : Nat) (s : LoadSt), 0 < r →
      (∀ i, i < r → (cb strat (iterateCb cb strat i s)).1 ≠ .ok true) →
      runRetry cb strat d r s = (⟨false, r, (r - 1) * d⟩, iterateCb cb strat r s) := by
  intro r
  induction r with
  | zero => omega
  | succ r' ih =>
      intro s _ hfail
      have h0 : (cb strat s).1 ≠ .ok true := by
        simpa [iterateCb] using hfail 0 (by omega)
      rw [runRetry_step_fail cb strat d r' s h0]
      by_cases hr : r' = 0
      · subst hr
        simp only [if_pos rfl]
        simp [iterateCb]
      · simp only [if_neg hr]
        have hshift : ∀ i, i < r' →
            (cb strat (iterateCb cb strat i (cb strat s).2)).1 ≠ .ok true := by
          intro i hi
          have := hfail (i + 1) (by omega)
          simpa [iterateCb] using this
        rw [ih (cb strat s).2 (by omega) hshift]
        have he : iterateCb cb strat (r' + 1) s = iterateCb cb strat r' (cb strat s).2 := by
          simp [iterateCb]
        rw [← he]
        have harith : (r' - 1) * d + d = (r' + 1 - 1) * d := by
          have h1 : r' + 1 - 1 = r' := by omega
          rw [h1]
          cases r' with
          | zero => omega
          | succ n => simp [Nat.succ_sub_one, Nat.succ_mul]
        rw [harith]

theorem runRetry_stops_at_success (cb : RecoveryCb) (strat : RecoveryStrategy)
    (d : Nat) :
    ∀ (j r : Nat) (s : LoadSt), j < r →
      (∀ i, i < j → (cb strat (iterateCb cb strat i s)).1 ≠ .ok true) →
      (cb strat (iterateCb cb strat j s)).1 = .ok true →
      runRetry cb strat d r s =
        (⟨true, j + 1, j * d⟩, (cb strat (iterateCb cb strat j s)).2) := by
  intro j
  induction j with
  | zero =>
      intro r s hjr _ hsucc
      match r, hjr with
      | r' + 1, _ =>
          simp only [iterateCb] at hsucc ⊢
          simpa using runRetry_first_try_success cb strat d r' s hsucc
  | succ j' ih =>
      intro r s hjr hfail hsucc
      match r, hjr with
      | r' + 1, _ =>
          have h0 : (cb strat s).1 ≠ .ok true := by
            simpa [iterateCb] using hfail 0 (by omega)
          have hr' : j' < r' := by omega
          rw [runRetry_step_fail cb strat d r' s h0]
          have hrne : r' ≠ 0 := by omega
          simp only [if_neg hrne]
          have hshift : ∀ i, i < j' →
              (cb strat (iterateCb cb strat i (cb strat s).2)).1 ≠ .ok true := by
            intro i hi
            have := hfail (i + 1) (by omega)
            simpa [iterateCb] using this
          have hsucc' : (cb strat (iterateCb cb strat j' (cb strat s).2)).1 = .ok true := by
            simpa [iterateCb] using hsucc
          rw [ih r' (cb strat s).2 hr' hshift hsucc']
          have he : iterateCb cb strat (j' + 1) s = iterateCb cb strat j' (cb strat s).2 := by
            simp [iterateCb]
          rw [← he]
          have harith : j' * d + d = (j' + 1) * d := by
            simp [Nat.succ_mul]
          rw [harith]

theorem runRetry_invocations_le (cb : RecoveryCb) (strat : RecoveryStrategy)
    (d : Nat) : ∀ (r : Nat) (s : LoadSt),
      (runRetry cb strat d r s).1.invocations ≤ r := by
  intro r
  induction r with
  | zero =>
      intro s
      simp [runRetry]
  | succ r' ih =>
      intro s
      rcases hp : cb strat s with ⟨c, s1⟩
      by_cases hc : c = .ok true
      · subst hc
        rw [runRetry_first_try_success cb strat d r' s (by rw [hp])]
        simp
      · rw [runRetry_step_fail cb strat d r' s (by rw [hp]; simpa using hc)]
        by_cases hr : r' = 0
        · simp [hr]
        · simp only [if_neg hr]
          have := ih (cb strat s).2
          simpa using Nat.succ_le_succ this

-- ============================================================================
-- LOADER LEMMAS
-- ============================================================================

theorem loadStart_awaiting (st : LoaderState) (mgr : TranslationCacheManager)
    (locale : String) (sec : Option String) (now : Nat) (pid : Nat)
    (h : mapGet st.loadingPromises (dedupKey locale sec) = some pid) :
    loadStart st mgr locale sec now = (.awaiting pid, st, mgr) := by
  simp [loadStart, h]

theorem loadStart_fresh (st : LoaderState) (mgr : TranslationCacheManager)
    (locale : String) (sec : Option String) (now : Nat)
    (h1 : mapGet st.loadingPromises (dedupKey locale sec) = none)
    (h2 : tierMiss mgr locale sec) :
    loadStart st mgr locale sec now =
      (.started st.nextPromiseId,
       { loadingPromises := mapSet st.loadingPromises (dedupKey locale sec) st.nextPromiseId,
         nextPromiseId := st.nextPromiseId + 1,
         fetchCount := st.fetchCount + 1 }, mgr) := by
  cases sec with
  | none =>
      simp only [tierMiss] at h2
      simp [loadStart, h1, getLocaleCacheM, memGet, h2]
  | some sc =>
      simp only [tierMiss] at h2
      simp [loadStart, h1, getSectionCacheM, lruGet, h2]

theorem loadStartN_awaiting (locale : String) (sec : Option String) (now : Nat)
    (pid : Nat) : ∀ (n : Nat) (st : LoaderState) (mgr : TranslationCacheManager),
      mapGet st.loadingPromises (dedupKey locale sec) = some pid →
      loadStartN locale sec now n st mgr =
        (List.replicate n (.awaiting pid), st, mgr) := by
  intro n
  induction n with
  | zero =>
      intro st mgr _
      rfl
  | succ n' ih =>
      intro st mgr h
      simp only [loadStartN]
      rw [loadStart_awaiting st mgr locale sec now pid h]
      simp only
      rw [ih st mgr h]
      simp [List.replicate_succ]

theorem dynamicLoaderCallback_state (fetch : FetchOracle) (sec : Option String) :
    ∀ (strat : RecoveryStrategy) (s : LoadSt),
      (dynamicLoaderCallback fetch sec strat s).2 = s := by
  intro strat s
  cases strat with
  | retry rc rd => rfl
  | skip => rfl
  | abort => rfl
  | fallback flo =>
      cases flo with
      | none => rfl
      | some fl =>
          by_cases h : fl = ""
          · simp [dynamicLoaderCallback, h]
          · cases hlf : loadFallback fetch fl sec with
            | ok d => simp [dynamicLoaderCallback, h, hlf]
            | error e => simp [dynamicLoaderCallback, h, hlf]

theorem runRetry_state_preserved (cb : RecoveryCb) (strat : RecoveryStrategy)
    (d : Nat) (hcb : ∀ str s', (cb str s').2 = s') :
    ∀ (r : Nat) (s : LoadSt), (runRetry cb strat d r s).2 = s := by
  intro r
  induction r with
  | zero =>
      intro s
      rfl
  | succ r' ih =>
      intro s
      have hs1 : (cb strat s).2 = s := hcb strat s
      by_cases hc : (cb strat s).1 = .ok true
      · rw [runRetry_first_try_success cb strat d r' s hc]
        exact hs1
      · rw [runRetry_step_fail cb strat d r' s hc]
        by_cases hr : r' = 0
        · simp [hr, hs1]
        · simp only [if_neg hr]
          rw [ih (cb strat s).2, hs1]

theorem executeStrategy_state_preserved (strat : RecoveryStrategy)
    (cb : RecoveryCb) (s : LoadSt) (hcb : ∀ str s', (cb str s').2 = s') :
    (executeStrategy strat cb s).2 = s := by
  cases strat with
  | retry rc rd => exact runRetry_state_preserved cb _ _ hcb _ s
  | skip => rfl
  | abort => rfl
  | fallback flo =>
      have hs1 : (cb (.fallback flo) s).2 = s := hcb _ s
      rcases hp : cb (.fallback flo) s with ⟨c, s1⟩
      rw [hp] at hs1
      simp only at hs1
      cases c with
      | ok b => simp [executeStrategy, hp, hs1]
      | thrown => simp [executeStrategy, hp, hs1]

theorem mapDelete_of_not_mem {α : Type} (m : JsMap α) (k : String)
    (h : k ∉ mapKeys m) : mapDelete m k = m := by
  induction m with
  | nil => rfl
  | cons p rest ih =>
      obtain ⟨k0, w⟩ := p
      have h0 : k0 ≠ k := by
        intro e
        exact h (by simp [mapKeys, e])
      have h1 : k ∉ mapKeys rest := by
        intro e
        apply h
        simp [mapKeys] at e ⊢
        exact Or.inr e
      simp [mapDelete, h0, ih h1]

theorem entryIsExpired_iff {α : Type} (e : CacheEntry α) (now : Nat) :
    entryIsExpired e now = true ↔ e.ttl < now - e.timestamp := by
  simp [entryIsExpired]

theorem entryIsExpired_false_iff {α : Type} (e : CacheEntry α) (now : Nat) :
    entryIsExpired e now = false ↔ now - e.timestamp ≤ e.ttl := by
  simp [entryIsExpired]

-- ============================================================================
-- CLAIM THEOREMS
-- ============================================================================

/-- C1. In-flight de-duplication of DynamicModuleLoader.load: (a) a load
call whose exact de-duplication key is already pending returns that same
pending promise and leaves the loader state — fetch count included —
and the caches untouched; (b) n + 1 concurrent load calls for the same
cold target, all started before the first resolves, issue exactly one
fetch, all hold the same promise, and therefore all observe the same
resolved value. -/
theorem dedup_load_single_fetch (st : LoaderState) (mgr : TranslationCacheManager)
    (locale : String) (sec : Option String) (now : Nat) (n : Nat) :
    (∀ pid, mapGet st.loadingPromises (dedupKey locale sec) = some pid →
        loadStart st mgr locale sec now = (.awaiting pid, st, mgr)) ∧
    (mapGet st.loadingPromises (dedupKey locale sec) = none →
      tierMiss mgr locale sec →
        (loadStartN locale sec now (n + 1) st mgr).1 =
          .started st.nextPromiseId :: List.replicate n (.awaiting st.nextPromiseId) ∧
        (loadStartN locale sec now (n + 1) st mgr).2.1.fetchCount = st.fetchCount + 1 ∧
        (∀ (res : Nat → TransValue), ∀ r ∈ (loadStartN locale sec now (n + 1) st mgr).1,
            observeLoad res r = res st.nextPromiseId)) := by
  constructor
  · intro pid h
    exact loadStart_awaiting st mgr locale sec now pid h
  · intro h1 h2
    have hfresh := loadStart_fresh st mgr locale sec now h1 h2
    have hreg : mapGet
        (mapSet st.loadingPromises (dedupKey locale sec) st.nextPromiseId)
        (dedupKey locale sec) = some st.nextPromiseId :=
      mapGet_mapSet_self _ _ _
    have hrest := loadStartN_awaiting locale sec now st.nextPromiseId n
      { loadingPromises := mapSet st.loadingPromises (dedupKey locale sec) st.nextPromiseId,
        nextPromiseId := st.nextPromiseId + 1,
        fetchCount := st.fetchCount + 1 } mgr hreg
    have hout : loadStartN locale sec now (n + 1) st mgr =
        (.started st.nextPromiseId :: List.replicate n (.awaiting st.nextPromiseId),
         { loadingPromises := mapSet st.loadingPromises (dedupKey locale sec) st.nextPromiseId,
           nextPromiseId := st.nextPromiseId + 1,
           fetchCount := st.fetchCount + 1 }, mgr) := by
      simp only [loadStartN]
      rw [hfresh]
      simp only
      rw [hrest]
    refine ⟨by rw [hout], by rw [hout], ?_⟩
    intro res r hr
    rw [hout] at hr
    simp only at hr
    rcases List.mem_cons.mp hr with h | h
    · rw [h]
      rfl
    · rw [List.eq_of_mem_replicate h]
      rfl

/-- C1 witness: three concurrent loads of a cold locale 'en' from a fresh
loader: one fetch, the results are the started promise 0 followed by two
awaits of promise 0. -/
theorem dedup_load_single_fetch_witness :
    (loadStartN "en" none 0 3 { loadingPromises := [], nextPromiseId := 0, fetchCount := 0 }
        (mkCacheManager 20 300000)).1 =
      [.started 0, .awaiting 0, .awaiting 0] ∧
    (loadStartN "en" none 0 3 { loadingPromises := [], nextPromiseId := 0, fetchCount := 0 }
        (mkCacheManager 20 300000)).2.1.fetchCount = 1 := by
  have h := (dedup_load_single_fetch
    { loadingPromises := [], nextPromiseId := 0, fetchCount := 0 }
    (mkCacheManager 20 300000) "en" none 0 2).2 rfl rfl
  exact ⟨h.1, h.2.1⟩

/-- C2 (code bug). clearLocale('en') is supposed to remove only the 'en'
entries (the repository's own test asserts `hasLocaleCache('vi')` and
`hasSectionCache('vi', 'common')` stay true), but the source clears every
tier entirely: after caching 'en' and 'vi' at all tiers, clearLocale('en')
leaves no 'vi' entry in the locale or section tier. -/
theorem clearLocale_clears_other_locales :
    hasLocaleCacheM (clearLocaleM clearLocaleScenario "en") "vi" 0 = false ∧
    hasSectionCacheM (clearLocaleM clearLocaleScenario "en") "vi" "common" 0 = false ∧
    hasLocaleCacheM clearLocaleScenario "vi" 0 = true ∧
    hasSectionCacheM clearLocaleScenario "vi" "common" 0 = true := by
  refine ⟨rfl, rfl, rfl, rfl⟩

/-- C8 (amended). setCurrentLocale validates membership in the supported
set; an unsupported locale makes it throw a bare `Error` (not a
ConfigurationError — that class exists in the taxonomy but state.ts does
not use it), leaving the current locale, the persisted preference and the
notification log unchanged; a supported locale updates the current locale,
persists it under 'preferred-locale' and notifies onLocaleChange
observers. -/
theorem setCurrentLocale_validates (st : StateMgr) (locale : String) :
    (locale ∉ st.supportedLocales →
        setCurrentLocale st locale = (some .plainError, st)) ∧
    (locale ∈ st.supportedLocales →
        (setCurrentLocale st locale).1 = none ∧
        (setCurrentLocale st locale).2.currentLocale = locale ∧
        mapGet (setCurrentLocale st locale).2.storage "preferred-locale" = some locale ∧
        (setCurrentLocale st locale).2.localeChangeNotices =
          st.localeChangeNotices ++ [locale] ∧
        (setCurrentLocale st locale).2.supportedLocales = st.supportedLocales) := by
  constructor
  · intro h
    simp [setCurrentLocale, h]
  · intro h
    simp [setCurrentLocale, h, mapGet_mapSet_self]

/-- C8 counterexample: the claim says the failure raised for an unsupported
locale is ConfigurationError-class; setCurrentLocale('fr') on the initial
state (supported: en, vi) throws a bare `Error`, which is not of the
ConfigurationError class. -/
theorem setCurrentLocale_throws_plain_error :
    (setCurrentLocale initialStateMgr "fr").1 = some .plainError ∧
    ThrownClass.plainError ≠ ThrownClass.ofTaxonomy .configurationError := by
  exact ⟨rfl, by decide⟩

/-- C8 witness: setting the supported locale 'en' from the initial state
succeeds, persists 'en' under 'preferred-locale', and notifies observers;
setting 'fr' fails and leaves the state untouched. -/
theorem setCurrentLocale_validates_witness :
    ((setCurrentLocale initialStateMgr "en").1 = none ∧
     (setCurrentLocale initialStateMgr "en").2.currentLocale = "en" ∧
     mapGet (setCurrentLocale initialStateMgr "en").2.storage "preferred-locale" = some "en" ∧
     (setCurrentLocale initialStateMgr "en").2.localeChangeNotices = [] ++ ["en"] ∧
     (setCurrentLocale initialStateMgr "en").2.supportedLocales = ["en", "vi"]) ∧
    setCurrentLocale initialStateMgr "fr" = (some .plainError, initialStateMgr) := by
  constructor
  · exact (setCurrentLocale_validates initialStateMgr "en").2 (by decide)
  · exact (setCurrentLocale_validates initialStateMgr "fr").1 (by decide)

/-- C9. The facade's getTranslation is total (it returns a String for every
translator behavior, so it never throws): when the host translator returns
a string it passes that string through, and when the host translator
throws — resolution failed for whatever reason — it returns the key
itself. -/
theorem getTranslation_never_throws (t : String → String → Except Unit String)
    (currentLocale key : String) (locale : Option String) :
    (∀ s, t key (targetLocaleOf currentLocale locale) = .ok s →
        getTranslation t currentLocale key locale = s) ∧
    (∀ e, t key (targetLocaleOf currentLocale locale) = .error e →
        getTranslation t currentLocale key locale = key) := by
  constructor
  · intro s h
    simp [getTranslation, h]
  · intro e h
    simp [getTranslation, h]

/-- C9 witness: a translator that throws on everything makes
getTranslation('common.hello') return 'common.hello'; one that resolves
returns the resolution. -/
theorem getTranslation_never_throws_witness :
    getTranslation (fun _ _ => .error ()) "vi" "common.hello" none = "common.hello" ∧
    getTranslation (fun _ _ => .ok "Xin chao") "vi" "common.hello" none = "Xin chao" := by
  constructor
  · exact (getTranslation_never_throws (fun _ _ => .error ()) "vi" "common.hello" none).2 () rfl
  · exact (getTranslation_never_throws (fun _ _ => .ok "Xin chao") "vi" "common.hello" none).1 "Xin chao" rfl

/-- C4. TTL semantics across both strategy classes (Memory backs the locale
and key tiers, LRU the section tier): get(key) returns non-null iff an
entry is stored and now - timestamp ≤ ttl; an expired entry is deleted as a
side effect of the get, so it is absent from subsequent has() and get();
cleanup() removes every expired entry, and the reported size counts only
what cleanup left behind. -/
theorem cache_ttl_expiry (α : Type) (now : Nat) :
    (∀ (s : MemoryCacheStrategy α) (k : String),
        ((memGet s k now).1.isSome = true ↔
          ∃ e, mapGet s.cache k = some e ∧ now - e.timestamp ≤ e.ttl) ∧
        (∀ e, mapGet s.cache k = some e → e.ttl < now - e.timestamp →
            mapGet (memGet s k now).2.cache k = none ∧
            memHas (memGet s k now).2 k now = false ∧
            (memGet (memGet s k now).2 k now).1 = none) ∧
        (∀ e, mapGet s.cache k = some e → e.ttl < now - e.timestamp →
            mapGet (memCleanup s now).cache k = none) ∧
        (∀ p ∈ (memCleanup s now).cache, entryIsExpired p.2 now = false) ∧
        memStatsSize (memCleanup s now) = (memCleanup s now).cache.length) ∧
    (∀ (s : LRUCacheStrategy α) (k : String),
        ((lruGet s k now).1.isSome = true ↔
          ∃ e, mapGet s.cache k = some e ∧ now - e.timestamp ≤ e.ttl) ∧
        (∀ e, mapGet s.cache k = some e → e.ttl < now - e.timestamp →
            mapGet (lruGet s k now).2.cache k = none ∧
            lruHas (lruGet s k now).2 k now = false ∧
            (lruGet (lruGet s k now).2 k now).1 = none) ∧
        (∀ e, mapGet s.cache k = some e → e.ttl < now - e.timestamp →
            mapGet (lruCleanup s now).cache k = none) ∧
        (∀ p ∈ (lruCleanup s now).cache, entryIsExpired p.2 now = false) ∧
        lruStatsSize (lruCleanup s now) = (lruCleanup s now).cache.length) := by
  constructor
  · intro s k
    refine ⟨?_, ?_, ?_, ?_, rfl⟩
    · cases hm : mapGet s.cache k with
      | none => simp [memGet, hm]
      | some e =>
          by_cases hex : entryIsExpired e now = true
          · have := (entryIsExpired_iff e now).mp hex
            simp [memGet, hm, hex]
            omega
          · have := (entryIsExpired_false_iff e now).mp (by simpa using hex)
            simp [memGet, hm, hex]
            omega
    · intro e hm hexp
      have hex : entryIsExpired e now = true := (entryIsExpired_iff e now).mpr hexp
      simp only [memGet, hm, hex, if_true]
      refine ⟨mapGet_mapDelete_self _ _, ?_, ?_⟩
      · simp [memHas, mapGet_mapDelete_self]
      · simp [memGet, mapGet_mapDelete_self]
    · intro e hm hexp
      have hex : entryIsExpired e now = true := (entryIsExpired_iff e now).mpr hexp
      have hmem : (k, e) ∈ s.cache := mapGet_some_mem _ _ _ hm
      have hkeys : k ∈ (s.cache.filter (fun p => entryIsExpired p.2 now)).map Prod.fst :=
        List.mem_map_of_mem Prod.fst (List.mem_filter.mpr ⟨hmem, hex⟩)
      simp only [memCleanup]
      exact mapGet_foldl_mapDelete_of_mem _ k hkeys s.cache
    · intro p hp
      simp only [memCleanup] at hp
      obtain ⟨hpm, hpk⟩ := mem_foldl_mapDelete _ _ _ hp
      by_contra hne
      have hex : entryIsExpired p.2 now = true := by
        cases h : entryIsExpired p.2 now
        · exact absurd h hne
        · rfl
      exact hpk (List.mem_map_of_mem Prod.fst (List.mem_filter.mpr ⟨hpm, hex⟩))
  · intro s k
    refine ⟨?_, ?_, ?_, ?_, rfl⟩
    · cases hm : mapGet s.cache k with
      | none => simp [lruGet, hm]
      | some e =>
          by_cases hex : entryIsExpired e now = true
          · have := (entryIsExpired_iff e now).mp hex
            simp [lruGet, hm, hex]
            omega
          · have := (entryIsExpired_false_iff e now).mp (by simpa using hex)
            simp [lruGet, hm, hex]
            omega
    · intro e hm hexp
      have hex : entryIsExpired e now = true := (entryIsExpired_iff e now).mpr hexp
      simp only [lruGet, hm, hex, if_true]
      refine ⟨mapGet_mapDelete_self _ _, ?_, ?_⟩
      · simp [lruHas, mapGet_mapDelete_self]
      · simp [lruGet, mapGet_mapDelete_self]
    · intro e hm hexp
      have hex : entryIsExpired e now = true := (entryIsExpired_iff e now).mpr hexp
      have hmem : (k, e) ∈ s.cache := mapGet_some_mem _ _ _ hm
      have hkeys : k ∈ (s.cache.filter (fun p => entryIsExpired p.2 now)).map Prod.fst :=
        List.mem_map_of_mem Prod.fst (List.mem_filter.mpr ⟨hmem, hex⟩)
      simp only [lruCleanup]
      exact mapGet_foldl_mapDelete_of_mem _ k hkeys s.cache
    · intro p hp
      simp only [lruCleanup] at hp
      obtain ⟨hpm, hpk⟩ := mem_foldl_mapDelete _ _ _ hp
      by_contra hne
      have hex : entryIsExpired p.2 now = true := by
        cases h : entryIsExpired p.2 now
        · exact absurd h hne
        · rfl
      exact hpk (List.mem_map_of_mem Prod.fst (List.mem_filter.mpr ⟨hpm, hex⟩))

/-- C4 witness: a concrete entry with ttl 10 written at time 0 and read at
time 20 is expired: the get deletes it, and subsequent has()/get() miss. -/
theorem cache_ttl_expiry_witness :
    mapGet (memGet (⟨[("k", ⟨"v", 0, 10, 0⟩)], 5⟩ : MemoryCacheStrategy String) "k" 20).2.cache "k" = none ∧
    memHas (memGet (⟨[("k", ⟨"v", 0, 10, 0⟩)], 5⟩ : MemoryCacheStrategy String) "k" 20).2 "k" 20 = false ∧
    (memGet (memGet (⟨[("k", ⟨"v", 0, 10, 0⟩)], 5⟩ : MemoryCacheStrategy String) "k" 20).2 "k" 20).1 = none :=
  ((cache_ttl_expiry String 20).1 ⟨[("k", ⟨"v", 0, 10, 0⟩)], 5⟩ "k").2.1
    ⟨"v", 0, 10, 0⟩ rfl (by decide)

/-- C5 (amended). For positive configured capacity and non-empty keys — as
every key the TranslationCacheManager forms is, each carrying its tier's
prefix — no sequence of set operations (in particular inserting
maxSize + 1 distinct keys) ever leaves more than maxSize entries resident
in a Memory or LRU tier: one entry is evicted before the insert whenever
the store is at capacity. The LRU (section) tier's eviction is the
deterministic least-recently-accessed choice: the insert that triggers
eviction removes the front key of the map, and a valid get moves its key
to the back, so the front is always the least recently accessed. -/
theorem eviction_capacity_invariant (α : Type) :
    (∀ (s : MemoryCacheStrategy α) (k : String) (v : α) (ttl : Option Nat) (now : Nat),
        1 ≤ s.maxSize → k ≠ "" → GoodKeys s.cache → s.cache.length ≤ s.maxSize →
        (memSet s k v ttl now).cache.length ≤ s.maxSize) ∧
    (∀ (maxSize : Nat) (ops : SetOps α), 1 ≤ maxSize →
        (∀ op ∈ ops, op.1 ≠ "") →
        (memSetAll ⟨[], maxSize⟩ ops).cache.length ≤ maxSize) ∧
    (∀ (s : LRUCacheStrategy α) (k : String) (v : α) (ttl : Option Nat) (now : Nat),
        1 ≤ s.maxSize → k ≠ "" → GoodKeys s.cache → s.cache.length ≤ s.maxSize →
        (lruSet s k v ttl now).cache.length ≤ s.maxSize) ∧
    (∀ (maxSize : Nat) (ops : SetOps α), 1 ≤ maxSize →
        (∀ op ∈ ops, op.1 ≠ "") →
        (lruSetAll ⟨[], maxSize⟩ ops).cache.length ≤ maxSize) ∧
    (∀ (s : LRUCacheStrategy α) (k : String) (v : α) (ttl : Option Nat) (now : Nat)
        (k0 : String) (e0 : CacheEntry α) (rest : JsMap (CacheEntry α)),
        s.cache = (k0, e0) :: rest → s.maxSize ≤ s.cache.length → k0 ≠ "" →
        k0 ∉ mapKeys rest → k ≠ k0 →
        mapGet (lruSet s k v ttl now).cache k0 = none ∧
        mapGet (lruSet s k v ttl now).cache k = some (newEntry v ttl now)) ∧
    (∀ (s : LRUCacheStrategy α) (k : String) (now : Nat) (e : CacheEntry α),
        mapGet s.cache k = some e → entryIsExpired e now = false →
        (lruGet s k now).2.cache =
          mapDelete s.cache k ++ [(k, { e with hits := e.hits + 1 })]) := by
  refine ⟨?_, ?_, ?_, ?_, ?_, ?_⟩
  · intro s k v ttl now hmax hk hg hlen
    exact (memSet_invariant s k v ttl now hmax hk hg hlen).1
  · intro maxSize ops hmax hops
    exact (memSetAll_invariant ops ⟨[], maxSize⟩ hmax hops
      (fun p hp => absurd hp (List.not_mem_nil p)) (Nat.zero_le _)).1
  · intro s k v ttl now hmax hk hg hlen
    exact (lruSet_invariant s k v ttl now hmax hk hg hlen).1
  · intro maxSize ops hmax hops
    exact (lruSetAll_invariant ops ⟨[], maxSize⟩ hmax hops
      (fun p hp => absurd hp (List.not_mem_nil p)) (Nat.zero_le _)).1
  · intro s k v ttl now k0 e0 rest hm hlen hk0 hnotin hne
    rw [hm] at hlen
    have hdel : mapDelete s.cache k0 = rest := by
      rw [hm]
      simp only [mapDelete, if_pos rfl]
      exact mapDelete_of_not_mem rest k0 hnotin
    have hcache : (lruSet s k v ttl now).cache = mapSet rest k (newEntry v ttl now) := by
      simp only [lruSet, hm]
      rw [if_pos hlen]
      simp only [if_neg hk0]
      rw [← hm, hdel]
    constructor
    · rw [hcache, mapGet_mapSet_ne rest k k0 _ hne]
      exact mapGet_eq_none_of_not_mem rest k0 hnotin
    · rw [hcache]
      exact mapGet_mapSet_self rest k _
  · intro s k now e hm hex
    simp [lruGet, hm, hex]

/-- C5 counterexample: the claim quantifies over every sequence of set
operations, but inserting the two distinct keys "" and "a" into an LRU
tier of maxSize 1 leaves 2 entries resident: at the second insert
`const firstKey = this.cache.keys().next().value; if (firstKey)` treats
the empty-string first key as falsy and skips the eviction (the Memory
tiers' `if (leastUsedKey)` share the flaw). -/
theorem eviction_capacity_counterexample :
    1 < (lruSet (lruSet (⟨[], 1⟩ : LRUCacheStrategy String) "" "x" none 0)
          "a" "y" none 0).cache.length ∧
    (lruSet (lruSet (⟨[], 1⟩ : LRUCacheStrategy String) "" "x" none 0)
          "a" "y" none 0).maxSize = 1 := by
  exact ⟨by decide, rfl⟩

/-- C5 witness: two sets of distinct non-empty keys into each kind of tier
of capacity 1 leave at most 1 entry resident. -/
theorem eviction_capacity_invariant_witness :
    (memSetAll (⟨[], 1⟩ : MemoryCacheStrategy String)
        [("a", "x", none, 0), ("b", "y", none, 0)]).cache.length ≤ 1 ∧
    (lruSetAll (⟨[], 1⟩ : LRUCacheStrategy String)
        [("a", "x", none, 0), ("b", "y", none, 0)]).cache.length ≤ 1 := by
  constructor
  · exact (eviction_capacity_invariant String).2.1 1 _ (by decide) (by decide)
  · exact (eviction_capacity_invariant String).2.2.2.1 1 _ (by decide) (by decide)

/-- C6. executeRecovery executes exactly the strategy mapped for the error:
skip returns true and abort returns false, each with zero callback
invocations; fallback invokes the callback exactly once and propagates its
boolean result; retry (positive count n, positive delay d) invokes the
callback up to n times — exhausting all n failed attempts returns false
after (n-1)·d of waiting, while a first success at attempt j+1 returns true
after j+1 invocations and j·d of waiting; and every execution increments
the tracker's recovery-attempt counter by one and the success counter
exactly when the run succeeded. -/
theorem executeRecovery_strategies (table : JsMap RecoveryStrategy)
    (kind : ErrKind) (cb : RecoveryCb) (s : LoadSt) :
    (getRecoveryStrategy table kind = .skip →
        executeRecovery table kind cb s =
          (⟨true, 0, 0⟩, (s.1, trackRecoveryAttempt s.2 true))) ∧
    (getRecoveryStrategy table kind = .abort →
        executeRecovery table kind cb s =
          (⟨false, 0, 0⟩, (s.1, trackRecoveryAttempt s.2 false))) ∧
    (∀ flo, getRecoveryStrategy table kind = .fallback flo →
        ∀ b s1, cb (.fallback flo) s = (.ok b, s1) →
          executeRecovery table kind cb s =
            (⟨b, 1, 0⟩, (s1.1, trackRecoveryAttempt s1.2 b))) ∧
    (∀ n d, getRecoveryStrategy table kind = .retry (some n) (some d) →
        0 < n → 0 < d →
        (∀ i, i < n →
            (cb (.retry (some n) (some d))
              (iterateCb cb (.retry (some n) (some d)) i s)).1 ≠ .ok true) →
        executeRecovery table kind cb s =
          (⟨false, n, (n - 1) * d⟩,
           ((iterateCb cb (.retry (some n) (some d)) n s).1,
            trackRecoveryAttempt (iterateCb cb (.retry (some n) (some d)) n s).2 false))) ∧
    (∀ n d j, getRecoveryStrategy table kind = .retry (some n) (some d) →
        0 < n → 0 < d → j < n →
        (∀ i, i < j →
            (cb (.retry (some n) (some d))
              (iterateCb cb (.retry (some n) (some d)) i s)).1 ≠ .ok true) →
        (cb (.retry (some n) (some d))
            (iterateCb cb (.retry (some n) (some d)) j s)).1 = .ok true →
        executeRecovery table kind cb s =
          (⟨true, j + 1, j * d⟩,
           ((cb (.retry (some n) (some d))
              (iterateCb cb (.retry (some n) (some d)) j s)).2.1,
            trackRecoveryAttempt
              (cb (.retry (some n) (some d))
                (iterateCb cb (.retry (some n) (some d)) j s)).2.2 true))) ∧
    (∀ n d, getRecoveryStrategy table kind = .retry (some n) (some d) → 0 < n →
        (executeRecovery table kind cb s).1.invocations ≤ n) ∧
    ((executeRecovery table kind cb s).2.2.recoveryAttemptCount =
        (executeStrategy (getRecoveryStrategy table kind) cb s).2.2.recoveryAttemptCount + 1 ∧
     (executeRecovery table kind cb s).2.2.recoverySuccessCount =
        (executeStrategy (getRecoveryStrategy table kind) cb s).2.2.recoverySuccessCount +
          (if (executeRecovery table kind cb s).1.success then 1 else 0)) := by
  refine ⟨?_, ?_, ?_, ?_, ?_, ?_, ?_⟩
  · intro h
    simp [executeRecovery, executeStrategy, h, trackRecoveryAttempt]
  · intro h
    simp [executeRecovery, executeStrategy, h, trackRecoveryAttempt]
  · intro flo h b s1 hcb
    simp [executeRecovery, executeStrategy, h, hcb]
  · intro n d h hn hd hfail
    have hjn : jsOrNat (some n) 3 = n := by
      simp [jsOrNat]
      omega
    have hjd : jsOrNat (some d) 1000 = d := by
      simp [jsOrNat]
      omega
    simp only [executeRecovery, executeStrategy, h, hjn, hjd]
    rw [runRetry_exhaust cb (.retry (some n) (some d)) d n s hn hfail]
  · intro n d j h hn hd hjn0 hfail hsucc
    have hjn : jsOrNat (some n) 3 = n := by
      simp [jsOrNat]
      omega
    have hjd : jsOrNat (some d) 1000 = d := by
      simp [jsOrNat]
      omega
    simp only [executeRecovery, executeStrategy, h, hjn, hjd]
    rw [runRetry_stops_at_success cb (.retry (some n) (some d)) d j n s hjn0 hfail hsucc]
  · intro n d h hn
    have hjn : jsOrNat (some n) 3 = n := by
      simp [jsOrNat]
      omega
    simp only [executeRecovery, executeStrategy, h, hjn]
    exact runRetry_invocations_le cb (.retry (some n) (some d)) _ n s
  · exact ⟨rfl, rfl⟩

/-- C6 witness: with the default strategy table, a network-class error maps
to retry(3, 1000); a callback that always fails is invoked 3 times, waits
2000 ms in total, and the execution is recorded as one failed recovery
attempt; a translation_key-class error maps to skip, which succeeds without
invoking the callback. -/
theorem executeRecovery_strategies_witness :
    executeRecovery defaultStrategies .networkError (fun _ s => (.ok false, s))
        (mkCacheManager 5 1000, emptyTracker) =
      (⟨false, 3, (3 - 1) * 1000⟩,
       ((iterateCb (fun _ s => (.ok false, s)) (.retry (some 3) (some 1000)) 3
          (mkCacheManager 5 1000, emptyTracker)).1,
        trackRecoveryAttempt
          (iterateCb (fun _ s => (.ok false, s)) (.retry (some 3) (some 1000)) 3
            (mkCacheManager 5 1000, emptyTracker)).2 false)) ∧
    executeRecovery defaultStrategies .translationKeyError (fun _ s => (.ok false, s))
        (mkCacheManager 5 1000, emptyTracker) =
      (⟨true, 0, 0⟩,
       (mkCacheManager 5 1000, trackRecoveryAttempt emptyTracker true)) := by
  constructor
  · exact (executeRecovery_strategies defaultStrategies .networkError
      (fun _ s => (.ok false, s)) (mkCacheManager 5 1000, emptyTracker)).2.2.2.1
      3 1000 rfl (by decide) (by decide) (by intro i _; simp)
  · exact (executeRecovery_strategies defaultStrategies .translationKeyError
      (fun _ s => (.ok false, s)) (mkCacheManager 5 1000, emptyTracker)).1 rfl

/-- C7. Fallback recovery in performLoad: when the fetch for locale X fails
while the recovery table's translation_load strategy (fallback to 'en') and
the configured fallback locale ('vi') both resolve, the caller receives the
configured fallback locale's payload instead of an exception; the tracker
records exactly one TranslationLoadError — counted under its class and
under locale X — and exactly one recovery attempt, counted successful.
The last conjunct is the propagation rule: an error attributed to X
escapes performLoad only when the executed recovery returned false
(exhausted, or an abort-class strategy). -/
theorem fallback_recovery_load (fetch : FetchOracle) (mgr : TranslationCacheManager)
    (tracker : ErrorTracker) (X : String) (now : Nat) (msg : String)
    (dEn dVi : TransValue)
    (hX : fetch X = .error msg)
    (hEn : fetch "en" = .ok dEn) (hTEn : truthy dEn = true)
    (hVi : fetch "vi" = .ok dVi) :
    performLoad fetch defaultStrategies "vi" (mgr, tracker) X none now =
      (.ok dVi,
       (mgr, trackRecoveryAttempt (trackError tracker .translationLoadError (some X)) true)) ∧
    mapGet (trackError tracker .translationLoadError (some X)).errorCounts
        "TranslationLoadError" =
      some ((mapGet tracker.errorCounts "TranslationLoadError").getD 0 + 1) ∧
    mapGet (trackError tracker .translationLoadError (some X)).localeErrorCounts X =
      some ((mapGet tracker.localeErrorCounts X).getD 0 + 1) ∧
    (trackRecoveryAttempt (trackError tracker .translationLoadError (some X))
        true).recoveryAttemptCount = tracker.recoveryAttemptCount + 1 ∧
    (trackRecoveryAttempt (trackError tracker .translationLoadError (some X))
        true).recoverySuccessCount = tracker.recoverySuccessCount + 1 ∧
    (∀ (fetch2 : FetchOracle) (table : JsMap RecoveryStrategy) (cfg : String)
        (s2 : LoadSt) (sec : Option String) (msg2 : String) (e : I18nErrorV),
        fetch2 X = .error msg2 → cfg ≠ X →
        (performLoad fetch2 table cfg s2 X sec now).1 = .error e →
        e.locale = some X →
        (executeRecovery table (wrapErrorKind sec) (dynamicLoaderCallback fetch2 sec)
          (s2.1, trackError s2.2 (wrapErrorKind sec) (some X))).1.success = false) := by
  refine ⟨?_, ?_, ?_, rfl, ?_, ?_⟩
  · have hcb : dynamicLoaderCallback fetch none (.fallback (some "en"))
        (mgr, trackError tracker .translationLoadError (some X)) =
        (.ok true, (mgr, trackError tracker .translationLoadError (some X))) := by
      simp [dynamicLoaderCallback, loadFallback, hEn, sectionExtract, hTEn]
    have hstrat : getRecoveryStrategy defaultStrategies .translationLoadError =
        .fallback (some "en") := rfl
    simp only [performLoad, hX, wrapErrorKind, executeRecovery, hstrat,
      executeStrategy, hcb]
    simp [loadFallback, hVi, sectionExtract]
  · simp [trackError, errClassName, mapGet_mapSet_self]
  · simp [trackError, mapGet_mapSet_self]
  · simp [trackRecoveryAttempt, trackError]
  · intro fetch2 table cfg s2 sec msg2 e h2 hcfg hres hloc
    cases hs : (executeRecovery table (wrapErrorKind sec)
        (dynamicLoaderCallback fetch2 sec)
        (s2.1, trackError s2.2 (wrapErrorKind sec) (some X))).1.success with
    | false => rfl
    | true =>
        exfalso
        simp only [performLoad, h2] at hres
        rw [hs] at hres
        simp only [if_true] at hres
        cases hf : fetch2 cfg with
        | ok d =>
            simp [loadFallback, hf] at hres
        | error e2 =>
            simp [loadFallback, hf] at hres
            rw [← hres] at hloc
            simp at hloc
            exact hcfg hloc

/-- C7 witness: the concrete network where 'fr' fails and the fallbacks
'en' and 'vi' resolve — load('fr') resolves to the 'vi' payload, with one
TranslationLoadError tracked for 'fr' and one successful recovery. -/
theorem fallback_recovery_load_witness :
    performLoad sampleFetchFallback defaultStrategies "vi"
        (mkCacheManager 20 300000, emptyTracker) "fr" none 0 =
      (.ok (.str "v"),
       (mkCacheManager 20 300000,
        trackRecoveryAttempt
          (trackError emptyTracker .translationLoadError (some "fr")) true)) :=
  (fallback_recovery_load sampleFetchFallback (mkCacheManager 20 300000)
    emptyTracker "fr" 0 "boom" (.obj []) (.str "v") rfl rfl rfl rfl).1

/-- C10. loadFallback fetches directly and writes nothing: on any failed
direct fetch, performLoad returns (on either outcome of recovery) with the
cache manager — all three tiers — exactly as it found it; consequently a
subsequent load of a target that is cold in cache and not in flight starts
a fresh network fetch. -/
theorem fallback_payload_not_cached (fetch : FetchOracle)
    (table : JsMap RecoveryStrategy) (cfg : String) (s : LoadSt)
    (st : LoaderState) (locale : String) (sec : Option String) (now : Nat)
    (msg : String) :
    (fetch locale = .error msg →
        (performLoad fetch table cfg s locale sec now).2.1 = s.1) ∧
    (mapGet st.loadingPromises (dedupKey locale sec) = none →
        tierMiss s.1 locale sec →
        (loadStart st s.1 locale sec now).1 = .started st.nextPromiseId ∧
        (loadStart st s.1 locale sec now).2.1.fetchCount = st.fetchCount + 1) := by
  constructor
  · intro h
    have hpres : (executeStrategy (getRecoveryStrategy table (wrapErrorKind sec))
        (dynamicLoaderCallback fetch sec)
        (s.1, trackError s.2 (wrapErrorKind sec) (some locale))).2 =
        (s.1, trackError s.2 (wrapErrorKind sec) (some locale)) :=
      executeStrategy_state_preserved _ _ _ (dynamicLoaderCallback_state fetch sec)
    simp only [performLoad, h, executeRecovery, hpres]
    split
    · cases hf : loadFallback fetch cfg sec with
      | ok d => simp
      | error e2 => simp
    · simp
  · intro h1 h2
    rw [loadStart_fresh st s.1 locale sec now h1 h2]
    exact ⟨rfl, rfl⟩

/-- C3 counterexample: the claim says a failed extraction does not populate
the key cache. With the payload where 'a.b' exists but 'a.b.c' does not,
loadKey('en', 'a.b.c') does return the literal key — but it also writes
that raw key into the key-granularity cache (extractKeyValue's degraded
return value is cached unconditionally), so the cache now holds the
poisoned entry. -/
theorem loadKey_caches_raw_key :
    (loadKey sampleFetchEn defaultStrategies "vi"
        (mkCacheManager 20 300000, emptyTracker) "en" "a.b.c" 0).1 = "a.b.c" ∧
    mapGet (loadKey sampleFetchEn defaultStrategies "vi"
        (mkCacheManager 20 300000, emptyTracker) "en" "a.b.c" 0).2.1.keyCache.cache
      (keyKey "en" "a.b.c") =
      some { data := "a.b.c", timestamp := 0, ttl := 300000, hits := 0 } := by
  exact ⟨rfl, rfl⟩

/-- C3 (amended). For a locale whose payload loads, a dotted key with a
missing segment or non-string terminal makes loadKey return the literal
key rather than throw — but loadKey caches that raw key at key
granularity, so a retry inside the ttl is served the same raw key from the
key cache instead of re-attempting extraction. -/
theorem loadKey_missing_key_degrades (fetch : FetchOracle)
    (table : JsMap RecoveryStrategy) (cfgFallback : String)
    (mgr : TranslationCacheManager) (tracker : ErrorTracker)
    (locale key : String) (payload : TransValue) (now now2 : Nat)
    (hfetch : fetch locale = .ok payload)
    (hkeymiss : mapGet mgr.keyCache.cache (keyKey locale key) = none)
    (hlocmiss : mapGet mgr.localeCache.cache (localeKey locale) = none)
    (hfail : ∀ s, descend payload (splitParts key.data) ≠ some (.str s))
    (hfresh : now2 - now ≤ mgr.ttl) :
    (loadKey fetch table cfgFallback (mgr, tracker) locale key now).1 = key ∧
    mapGet (loadKey fetch table cfgFallback
        (mgr, tracker) locale key now).2.1.keyCache.cache (keyKey locale key) =
      some { data := key, timestamp := now, ttl := mgr.ttl, hits := 0 } ∧
    (loadKey fetch table cfgFallback
        (loadKey fetch table cfgFallback (mgr, tracker) locale key now).2
        locale key now2).1 = key ∧
    (getKeyCacheM (loadKey fetch table cfgFallback
        (mgr, tracker) locale key now).2.1 locale key now2).1.isSome = true := by
  have hexval : extractKeyValue payload key = key := by
    unfold extractKeyValue
    cases hd : descend payload (splitParts key.data) with
    | none => rfl
    | some v =>
        cases v with
        | str s => exact absurd hd (hfail s)
        | obj fs => rfl
        | undef => rfl
  have hrun : loadKey fetch table cfgFallback (mgr, tracker) locale key now =
      (key, (setKeyCacheM (setLocaleCacheM mgr locale payload now) locale key key now,
             tracker)) := by
    simp only [loadKey, getKeyCacheM, memGet, hkeymiss, moduleLoad, getLocaleCacheM,
      hlocmiss, performLoad, hfetch, sectionExtract, hexval]
  have hmget : mapGet (loadKey fetch table cfgFallback
      (mgr, tracker) locale key now).2.1.keyCache.cache (keyKey locale key) =
      some { data := key, timestamp := now, ttl := mgr.ttl, hits := 0 } := by
    rw [hrun]
    simp [setKeyCacheM, setLocaleCacheM, memSet, newEntry, mapGet_mapSet_self]
  have hexp : entryIsExpired
      ({ data := key, timestamp := now, ttl := mgr.ttl, hits := 0 } : CacheEntry String)
      now2 = false := by
    simp [entryIsExpired]
    omega
  refine ⟨by rw [hrun], hmget, ?_, ?_⟩
  · rw [hrun] at hmget ⊢
    simp only [loadKey, getKeyCacheM, memGet, hmget, hexp]
    simp
  · rw [hrun] at hmget ⊢
    simp only [getKeyCacheM, memGet, hmget, hexp]
    simp

/-- C3 witness: the retry of loadKey('en', 'a.b.c') on the concrete
scenario returns the raw key again, and it is a key-cache hit. -/
theorem loadKey_missing_key_degrades_witness :
    (loadKey sampleFetchEn defaultStrategies "vi"
        (loadKey sampleFetchEn defaultStrategies "vi"
          (mkCacheManager 20 300000, emptyTracker) "en" "a.b.c" 0).2
        "en" "a.b.c" 0).1 = "a.b.c" ∧
    (getKeyCacheM (loadKey sampleFetchEn defaultStrategies "vi"
        (mkCacheManager 20 300000, emptyTracker) "en" "a.b.c" 0).2.1
      "en" "a.b.c" 0).1.isSome = true := by
  have h := loadKey_missing_key_degrades sampleFetchEn defaultStrategies "vi"
    (mkCacheManager 20 300000) emptyTracker "en" "a.b.c" samplePayload 0 0
    rfl rfl rfl
    (fun s hcon => by
      rw [show descend samplePayload (splitParts "a.b.c".data) = none from rfl] at hcon
      exact Option.noConfusion hcon)
    (by decide)
  exact ⟨h.2.2.1, h.2.2.2⟩

end I18nModel
